import Mathlib

/-!
Generated templ renderers and the element parser: a shallow embedding.

The generated Go renderers of the repository (`render`, `BasicTemplate`, `list` and the
four components of `test-text-whitespace`) are embedded as Lean functions over an
explicit trace of the effects a render call has on the outside world. The element parser,
of which only the tests are at hand, is modelled from the spec.

Modelling conventions:

* a Go `string` is a Lean `String` (a sequence of Unicode scalar values);
* a Go `error` is a `GoError`, `nil` is `none`;
* an `io.Writer` is either a `*bytes.Buffer` (with its current contents) or any other
  writer, given by its `Write` method as a function of the chunks it was offered before
  and of the chunk offered now;
* `(*bytes.Buffer).WriteString` never fails (memory is unbounded), as in the Go library;
* `io.Copy(w, buf)` is `buf.WriteTo(w)`: one `Write` call with the whole unread contents,
  and no call at all when the buffer is empty;
* the context calls (`InitializeContext`, `GetChildren`, `ClearChildren`,
  `RenderedCSSClassesFromContext`) do not touch the writer and are left out.
-/

namespace Templ

/-- A Go `error` value. -/
structure GoError where
  msg : String
deriving DecidableEq, Repr

/-- The sentinel `io.ErrShortWrite`. -/
def io.ErrShortWrite : GoError := ⟨"short write"⟩

/-- One effect of a render call. -/
inductive Event
  /-- `templ.GetBuffer()` -/
  | GetBuffer
  /-- `templ.ReleaseBuffer(b)` -/
  | ReleaseBuffer
  /-- `b.WriteString(p)` on a `*bytes.Buffer` -/
  | WriteString (p : String)
  /-- `io.Copy(w, b)` is called, `b` a `*bytes.Buffer` holding `content` -/
  | Copy (content : String)
  /-- `w.Write(p)` on a writer that is not a `*bytes.Buffer`, with the `(n, err)` it returned -/
  | Write (p : String) (n : Nat) (err : Option GoError)
deriving DecidableEq, Repr

/-- How a call ends: it returns its `err` result, or it panics. -/
inductive Outcome
  | returned (err : Option GoError)
  | panicked (msg : String)
deriving DecidableEq, Repr

/-- An `io.Writer`: a `*bytes.Buffer` holding `contents`, or another writer whose `Write`
method answers `(n, err)` from the chunks offered so far and the chunk offered now. -/
inductive Writer
  | bytesBuffer (contents : String)
  | other (write : List String → String → Nat × Option GoError)

/-- The state a render call threads: the contents of `templBuffer` (the `*bytes.Buffer`
in play) and the effects so far, oldest first. -/
structure St where
  buf : String
  trace : List Event
deriving DecidableEq, Repr

/-- What a render call leaves behind: how it ended, its effects in order, and the final
contents of `w` when `w` is a `*bytes.Buffer`. -/
structure Result where
  outcome : Outcome
  trace : List Event
  buffer : Option String
deriving DecidableEq, Repr

/-- The chunks offered to the real sink, in order. -/
def sinkCalls : List Event → List String
  | [] => []
  | Event.Write p _ _ :: es => p :: sinkCalls es
  | _ :: es => sinkCalls es

/-- The chunks the real sink took whole (`n = len(p)` and `err == nil`), in order. -/
def accepted : List Event → List String
  | [] => []
  | Event.Write p n err :: es =>
      if n = p.utf8ByteSize ∧ err = none then p :: accepted es else accepted es
  | _ :: es => accepted es

/-- The chunks written with `WriteString` into a `*bytes.Buffer`, in order. -/
def bufferWrites : List Event → List String
  | [] => []
  | Event.WriteString p :: es => p :: bufferWrites es
  | _ :: es => bufferWrites es

/-- Number of `io.Copy` calls in a trace. -/
def copies : List Event → Nat
  | [] => 0
  | Event.Copy _ :: es => copies es + 1
  | _ :: es => copies es

/-- Number of `templ.GetBuffer` calls in a trace. -/
def gets (t : List Event) : Nat := t.count Event.GetBuffer

/-- Number of `templ.ReleaseBuffer` calls in a trace. -/
def releases (t : List Event) : Nat := t.count Event.ReleaseBuffer

/-- A sink that accepts all writes: every `Write(p)` returns `(len(p), nil)`. -/
def AcceptsAll (write : List String → String → Nat × Option GoError) : Prop :=
  ∀ calls p, write calls p = (p.utf8ByteSize, none)

/-- `(*bytes.Buffer).WriteString(s)`: appends `s`; the error is always `nil`. -/
def Buffer.WriteString (s : String) (st : St) : Option GoError × St :=
  (none, { buf := st.buf ++ s, trace := st.trace ++ [Event.WriteString s] })

/-- `w.Write(p)` on a writer that is not a `*bytes.Buffer`. -/
def Sink.Write (write : List String → String → Nat × Option GoError) (p : String) (st : St) :
    (Nat × Option GoError) × St :=
  let r := write (sinkCalls st.trace) p
  (r, { st with trace := st.trace ++ [Event.Write p r.1 r.2] })

/-- `io.WriteString(w, s)`: one `WriteString`/`Write` call on `w`. -/
def io.WriteString (w : Writer) (s : String) (st : St) : Option GoError × St :=
  match w with
  | Writer.bytesBuffer _ => Buffer.WriteString s st
  | Writer.other write =>
      let (r, st) := Sink.Write write s st
      (r.2, st)

/-- `io.Copy(w, templBuffer)` for a `w` that is not a `*bytes.Buffer`, which is
`templBuffer.WriteTo(w)`: nothing is written when the buffer is empty; otherwise the whole
contents go to `w` in one `Write`, a count above the length panics, an error is returned
as is, and a short count without error gives `io.ErrShortWrite`. The contents left in the
scratch buffer afterwards are not tracked (`ReleaseBuffer` resets it). -/
def io.Copy (write : List String → String → Nat × Option GoError) (st : St) : Outcome × St :=
  let st : St := { st with trace := st.trace ++ [Event.Copy st.buf] }
  let nBytes := st.buf.utf8ByteSize
  if nBytes > 0 then
    let (r, st) := Sink.Write write st.buf st
    if r.1 > nBytes then (Outcome.panicked "bytes.Buffer.WriteTo: invalid Write count", st)
    else if r.2 ≠ none then (Outcome.returned r.2, st)
    else if r.1 ≠ nBytes then (Outcome.returned (some io.ErrShortWrite), st)
    else (Outcome.returned none, st)
  else (Outcome.returned none, st)

/-- Modelled from the spec: `templ.GetBuffer` (the runtime package is not under `src/`);
the pool hands out an empty scratch buffer. -/
def templ.GetBuffer (st : St) : St :=
  { buf := "", trace := st.trace ++ [Event.GetBuffer] }

/-- Modelled from the spec: `templ.ReleaseBuffer` (the runtime package is not under
`src/`); the scratch buffer is reset and goes back to the pool. -/
def templ.ReleaseBuffer (st : St) : St :=
  { buf := "", trace := st.trace ++ [Event.ReleaseBuffer] }

/-- Modelled from the spec: the replacement `templ.EscapeString` makes for one character
(the runtime package is not under `src/`): the five characters `& ' < > "` become entity
references, with the entities of the spec's escaping example, every other character stays. -/
def templ.escapeChar (c : Char) : String :=
  if c = '&' then "&amp;"
  else if c = Char.ofNat 39 then "&#39;"
  else if c = '<' then "&lt;"
  else if c = '>' then "&gt;"
  else if c = Char.ofNat 34 then "&quot;"
  else String.singleton c

/-- Modelled from the spec: `templ.EscapeString` (the runtime package is not under
`src/`), HTML escaping of a string, character by character. -/
def templ.EscapeString (s : String) : String :=
  String.join (s.data.map templ.escapeChar)

/-- The fixed placeholder `templ.FailedSanitizationURL`. -/
def templ.FailedSanitizationURL : String := "about:invalid#TemplFailedSanitizationURL"

/-- Modelled from the spec: the scheme of a URL, as `templ.URL` sees it (the runtime
package is not under `src/`): the text before the first `:`, when there is a `:` and no
`/` stands before it. -/
def templ.scheme (s : String) : Option String :=
  let pre := s.data.takeWhile (fun c => c ≠ ':')
  if pre.length < s.data.length ∧ '/' ∉ pre then some (String.mk pre) else none

/-- Modelled from the spec: the fixed allow-list of schemes of `templ.URL`; the spec gives
no folding rule, so names are compared as they are. -/
def templ.allowedScheme (p : String) : Bool :=
  p = "http" || p = "https" || p = "mailto"

/-- Modelled from the spec: `templ.URL` (the runtime package is not under `src/`): a
value with a scheme outside the allow-list is replaced by the placeholder, any other value
is passed through. The result is the string under the `templ.SafeURL` wrapper. -/
def templ.URL (s : String) : String :=
  match templ.scheme s with
  | some p => if templ.allowedScheme p then s else templ.FailedSanitizationURL
  | none => s

/-! ## The buffer set-up shared by the pooled renderers -/

/-- Lines `templBuffer, templIsBuffer := w.(*bytes.Buffer)` to
`defer templ.ReleaseBuffer(templBuffer)` of every pooled renderer, around its body. The
type assertion is the match on `w`; the deferred `ReleaseBuffer` runs after the body,
however the body ends. -/
def withTemplBuffer (w : Writer) (body : St → Outcome × St) : Result :=
  match w with
  | Writer.bytesBuffer contents =>
      let (outcome, st) := body { buf := contents, trace := [] }
      { outcome := outcome, trace := st.trace, buffer := some st.buf }
  | Writer.other _ =>
      let templBuffer := templ.GetBuffer { buf := "", trace := [] }
      let (outcome, st) := body templBuffer
      let st := templ.ReleaseBuffer st
      { outcome := outcome, trace := st.trace, buffer := none }

/-- Lines `if !templIsBuffer { _, err = io.Copy(w, templBuffer) }; return err` that end
every pooled renderer. -/
def copyOut (w : Writer) (err : Option GoError) (st : St) : Outcome × St :=
  match w with
  | Writer.other write => io.Copy write st
  | Writer.bytesBuffer _ => (Outcome.returned err, st)

/-! ## `generator/test-string`: `render` -/

/-- Body of `render` after the buffer set-up (lines 19 to 34). -/
def render.body (s : String) (w : Writer) (st : St) : Outcome × St :=
  -- StringExpression
  let var_2 : String := s
  let (err, st) := Buffer.WriteString (templ.EscapeString var_2) st
  if err ≠ none then (Outcome.returned err, st)
  else copyOut w err st

/-- The component `render(s)` applied to the writer `w`. -/
def render (s : String) (w : Writer) : Result :=
  withTemplBuffer w (render.body s w)

/-! ## `generator/test-attribute-escaping`: `BasicTemplate` -/

/-- Body of `BasicTemplate`: ten `io.WriteString` calls straight on `w`, each followed by
`if err != nil { return err }`. -/
def BasicTemplate.body (url : String) (w : Writer) (st : St) : Option GoError × St :=
  let (err, st) := io.WriteString w "<div>" st
  if err ≠ none then (err, st)
  else
  let (err, st) := io.WriteString w "<a" st
  if err ≠ none then (err, st)
  else
  let (err, st) := io.WriteString w " href=" st
  if err ≠ none then (err, st)
  else
  let (err, st) := io.WriteString w "\"" st
  if err ≠ none then (err, st)
  else
  let var_1 : String := templ.URL url
  let (err, st) := io.WriteString w (templ.EscapeString var_1) st
  if err ≠ none then (err, st)
  else
  let (err, st) := io.WriteString w "\"" st
  if err ≠ none then (err, st)
  else
  let (err, st) := io.WriteString w ">" st
  if err ≠ none then (err, st)
  else
  let var_2 := "text"
  let (err, st) := io.WriteString w var_2 st
  if err ≠ none then (err, st)
  else
  let (err, st) := io.WriteString w "</a>" st
  if err ≠ none then (err, st)
  else
  let (err, st) := io.WriteString w "</div>" st
  if err ≠ none then (err, st)
  else (err, st)

/-- The ten chunks `BasicTemplate(url)` writes, in order. -/
def BasicTemplate.chunks (url : String) : List String :=
  ["<div>", "<a", " href=", "\"", templ.EscapeString (templ.URL url), "\"", ">", "text",
    "</a>", "</div>"]

/-- The component `BasicTemplate(url)` applied to the writer `w`: no type assertion, no
scratch buffer, no copy. -/
def BasicTemplate (url : String) (w : Writer) : Result :=
  match w with
  | Writer.bytesBuffer contents =>
      let (err, st) := BasicTemplate.body url w { buf := contents, trace := [] }
      { outcome := Outcome.returned err, trace := st.trace, buffer := some st.buf }
  | Writer.other _ =>
      let (err, st) := BasicTemplate.body url w { buf := "", trace := [] }
      { outcome := Outcome.returned err, trace := st.trace, buffer := none }

/-! ## `examples/syntax-and-usage/components`: `list` -/

/-- The loop `for _, item := range items` of `list`; `some e` is an early `return err`. -/
def list.loop (items : List String) (st : St) : Option GoError × St :=
  match items with
  | [] => (none, st)
  | item :: rest =>
      -- Element (standard)
      let (err, st) := Buffer.WriteString "<li>" st
      if err ≠ none then (err, st)
      else
      -- StringExpression
      let var_2 : String := item
      let (err, st) := Buffer.WriteString (templ.EscapeString var_2) st
      if err ≠ none then (err, st)
      else
      let (err, st) := Buffer.WriteString "</li>" st
      if err ≠ none then (err, st)
      else list.loop rest st

/-- Body of `list` after the buffer set-up. -/
def list.body (items : List String) (w : Writer) (st : St) : Outcome × St :=
  -- Element (standard)
  let (err, st) := Buffer.WriteString "<ol>" st
  if err ≠ none then (Outcome.returned err, st)
  else
  -- For
  let (err, st) := list.loop items st
  if err ≠ none then (Outcome.returned err, st)
  else
  let (err, st) := Buffer.WriteString "</ol>" st
  if err ≠ none then (Outcome.returned err, st)
  else copyOut w err st

/-- The chunks the loop of `list` writes for `items`. -/
def list.items (items : List String) : List String :=
  items.flatMap (fun item => ["<li>", templ.EscapeString item, "</li>"])

/-- The component `list(items)` applied to the writer `w`. -/
def list (items : List String) (w : Writer) : Result :=
  withTemplBuffer w (list.body items w)

/-! ## `generator/test-text-whitespace` -/

/-- What follows the `if true` block of `WhitespaceIsAddedWithinTemplStatements`. -/
def WhitespaceIsAddedWithinTemplStatements.rest (w : Writer) (st : St) : Outcome × St :=
  let (err, st) := Buffer.WriteString "</p>" st
  if err ≠ none then (Outcome.returned err, st)
  else copyOut w err st

/-- Body of `WhitespaceIsAddedWithinTemplStatements` after the buffer set-up. -/
def WhitespaceIsAddedWithinTemplStatements.body (w : Writer) (st : St) : Outcome × St :=
  -- Element (standard)
  let (err, st) := Buffer.WriteString "<p>" st
  if err ≠ none then (Outcome.returned err, st)
  else
  -- Text
  let var_2 := "This is some text."
  let (err, st) := Buffer.WriteString var_2 st
  if err ≠ none then (Outcome.returned err, st)
  else
  -- Whitespace (normalised)
  let (err, st) := Buffer.WriteString " " st
  if err ≠ none then (Outcome.returned err, st)
  else
  -- If
  if true then
    -- Text
    let var_3 := "So is this."
    let (err, st) := Buffer.WriteString var_3 st
    if err ≠ none then (Outcome.returned err, st)
    else WhitespaceIsAddedWithinTemplStatements.rest w st
  else WhitespaceIsAddedWithinTemplStatements.rest w st

/-- The component `WhitespaceIsAddedWithinTemplStatements()` applied to the writer `w`. -/
def WhitespaceIsAddedWithinTemplStatements (w : Writer) : Result :=
  withTemplBuffer w (WhitespaceIsAddedWithinTemplStatements.body w)

/-- The constant `WhitespaceIsAddedWithinTemplStatementsExpected`. -/
def WhitespaceIsAddedWithinTemplStatementsExpected : String :=
  "<p>This is some text. So is this.</p>"

/-- Body of `InlineElementsAreNotPadded` after the buffer set-up. -/
def InlineElementsAreNotPadded.body (w : Writer) (st : St) : Outcome × St :=
  -- Element (standard)
  let (err, st) := Buffer.WriteString "<p>" st
  if err ≠ none then (Outcome.returned err, st)
  else
  -- Text
  let var_5 := "Inline text "
  let (err, st) := Buffer.WriteString var_5 st
  if err ≠ none then (Outcome.returned err, st)
  else
  -- Element (standard)
  let (err, st) := Buffer.WriteString "<b>" st
  if err ≠ none then (Outcome.returned err, st)
  else
  -- Text
  let var_6 := "is spaced properly"
  let (err, st) := Buffer.WriteString var_6 st
  if err ≠ none then (Outcome.returned err, st)
  else
  let (err, st) := Buffer.WriteString "</b>" st
  if err ≠ none then (Outcome.returned err, st)
  else
  -- Whitespace (normalised)
  let (err, st) := Buffer.WriteString " " st
  if err ≠ none then (Outcome.returned err, st)
  else
  -- Text
  let var_7 := "without adding extra spaces."
  let (err, st) := Buffer.WriteString var_7 st
  if err ≠ none then (Outcome.returned err, st)
  else
  let (err, st) := Buffer.WriteString "</p>" st
  if err ≠ none then (Outcome.returned err, st)
  else copyOut w err st

/-- The component `InlineElementsAreNotPadded()` applied to the writer `w`. -/
def InlineElementsAreNotPadded (w : Writer) : Result :=
  withTemplBuffer w (InlineElementsAreNotPadded.body w)

/-- The constant `InlineElementsAreNotPaddedExpected`. -/
def InlineElementsAreNotPaddedExpected : String :=
  "<p>Inline text <b>is spaced properly</b> without adding extra spaces.</p>"

/-- Body of `WhiteSpaceInHTMLIsNormalised` after the buffer set-up. -/
def WhiteSpaceInHTMLIsNormalised.body (w : Writer) (st : St) : Outcome × St :=
  -- Element (standard)
  let (err, st) := Buffer.WriteString "<p>" st
  if err ≠ none then (Outcome.returned err, st)
  else
  -- Text
  let var_9 := "newlines and other whitespace are stripped"
  let (err, st) := Buffer.WriteString var_9 st
  if err ≠ none then (Outcome.returned err, st)
  else
  -- Whitespace (normalised)
  let (err, st) := Buffer.WriteString " " st
  if err ≠ none then (Outcome.returned err, st)
  else
  -- Text
  let var_10 := "but it is normalised"
  let (err, st) := Buffer.WriteString var_10 st
  if err ≠ none then (Outcome.returned err, st)
  else
  -- Whitespace (normalised)
  let (err, st) := Buffer.WriteString " " st
  if err ≠ none then (Outcome.returned err, st)
  else
  -- Text
  let var_11 := "like HTML."
  let (err, st) := Buffer.WriteString var_11 st
  if err ≠ none then (Outcome.returned err, st)
  else
  let (err, st) := Buffer.WriteString "</p>" st
  if err ≠ none then (Outcome.returned err, st)
  else copyOut w err st

/-- The component `WhiteSpaceInHTMLIsNormalised()` applied to the writer `w`. -/
def WhiteSpaceInHTMLIsNormalised (w : Writer) : Result :=
  withTemplBuffer w (WhiteSpaceInHTMLIsNormalised.body w)

/-- The constant `WhiteSpaceInHTMLIsNormalisedExpected`. -/
def WhiteSpaceInHTMLIsNormalisedExpected : String :=
  "<p>newlines and other whitespace are stripped but it is normalised like HTML.</p>"

/-- Body of `WhiteSpaceAroundValues` after the buffer set-up. -/
def WhiteSpaceAroundValues.body (w : Writer) (st : St) : Outcome × St :=
  -- Element (standard)
  let (err, st) := Buffer.WriteString "<p>" st
  if err ≠ none then (Outcome.returned err, st)
  else
  -- Text
  let var_13 := "templ allows "
  let (err, st) := Buffer.WriteString var_13 st
  if err ≠ none then (Outcome.returned err, st)
  else
  -- StringExpression
  let var_14 : String := "strings"
  let (err, st) := Buffer.WriteString (templ.EscapeString var_14) st
  if err ≠ none then (Outcome.returned err, st)
  else
  -- Whitespace (normalised)
  let (err, st) := Buffer.WriteString " " st
  if err ≠ none then (Outcome.returned err, st)
  else
  -- Text
  let var_15 := "to be included in sentences."
  let (err, st) := Buffer.WriteString var_15 st
  if err ≠ none then (Outcome.returned err, st)
  else
  let (err, st) := Buffer.WriteString "</p>" st
  if err ≠ none then (Outcome.returned err, st)
  else copyOut w err st

/-- The component `WhiteSpaceAroundValues()` applied to the writer `w`. -/
def WhiteSpaceAroundValues (w : Writer) : Result :=
  withTemplBuffer w (WhiteSpaceAroundValues.body w)

/-- The constant `WhiteSpaceAroundValuesExpected`. -/
def WhiteSpaceAroundValuesExpected : String :=
  "<p>templ allows strings to be included in sentences.</p>"

/-! ## The pooled renderers as one family -/

/-- A pooled-buffer renderer together with its input. -/
inductive Pooled
  | render (s : String)
  | list (items : List String)
  | WhitespaceIsAddedWithinTemplStatements
  | InlineElementsAreNotPadded
  | WhiteSpaceInHTMLIsNormalised
  | WhiteSpaceAroundValues

/-- Running a pooled renderer on a writer. -/
def Pooled.run : Pooled → Writer → Result
  | Pooled.render s => Templ.render s
  | Pooled.list items => Templ.list items
  | Pooled.WhitespaceIsAddedWithinTemplStatements => Templ.WhitespaceIsAddedWithinTemplStatements
  | Pooled.InlineElementsAreNotPadded => Templ.InlineElementsAreNotPadded
  | Pooled.WhiteSpaceInHTMLIsNormalised => Templ.WhiteSpaceInHTMLIsNormalised
  | Pooled.WhiteSpaceAroundValues => Templ.WhiteSpaceAroundValues

/-- The chunks a pooled renderer writes into `templBuffer`, in order. -/
def Pooled.chunks : Pooled → List String
  | Pooled.render s => [templ.EscapeString s]
  | Pooled.list items => "<ol>" :: list.items items ++ ["</ol>"]
  | Pooled.WhitespaceIsAddedWithinTemplStatements =>
      ["<p>", "This is some text.", " ", "So is this.", "</p>"]
  | Pooled.InlineElementsAreNotPadded =>
      ["<p>", "Inline text ", "<b>", "is spaced properly", "</b>", " ",
        "without adding extra spaces.", "</p>"]
  | Pooled.WhiteSpaceInHTMLIsNormalised =>
      ["<p>", "newlines and other whitespace are stripped", " ", "but it is normalised", " ",
        "like HTML.", "</p>"]
  | Pooled.WhiteSpaceAroundValues =>
      ["<p>", "templ allows ", templ.EscapeString "strings", " ",
        "to be included in sentences.", "</p>"]

/-! ## Sequences of writes -/

/-- The state after `WriteString` of each chunk in turn. -/
def written (chunks : List String) (st : St) : St :=
  { buf := st.buf ++ String.join chunks, trace := st.trace ++ chunks.map Event.WriteString }

/-- `io.WriteString(w, c)` for each chunk in turn, stopping at the first error. -/
def writeAll (w : Writer) : List String → St → Option GoError × St
  | [], st => (none, st)
  | c :: cs, st =>
      let (err, st) := io.WriteString w c st
      if err ≠ none then (err, st) else writeAll w cs st

/-- The events of `io.Copy` of a buffer holding `out` to a sink that saw no call yet. -/
def copyEvents (write : List String → String → Nat × Option GoError) (out : String) :
    List Event :=
  Event.Copy out ::
    (if out = "" then [] else [Event.Write out (write [] out).1 (write [] out).2])

/-- How `io.Copy` of a buffer holding `out` ends on a sink that saw no call yet. -/
def copyOutcome (write : List String → String → Nat × Option GoError) (out : String) :
    Outcome :=
  if out = "" then Outcome.returned none
  else if (write [] out).1 > out.utf8ByteSize then
    Outcome.panicked "bytes.Buffer.WriteTo: invalid Write count"
  else if (write [] out).2 ≠ none then Outcome.returned (write [] out).2
  else if (write [] out).1 ≠ out.utf8ByteSize then Outcome.returned (some io.ErrShortWrite)
  else Outcome.returned none


/-! ## What a sink ends up with -/

/-- A writer that accepts all writes: a `*bytes.Buffer`, or a sink whose every `Write(p)`
returns `(len(p), nil)`. -/
def Writer.AcceptsAll : Writer → Prop
  | Writer.bytesBuffer _ => True
  | Writer.other write => Templ.AcceptsAll write

/-- What the writer holds before the call: the contents of a `*bytes.Buffer`, nothing
for another sink. -/
def Writer.contents : Writer → String
  | Writer.bytesBuffer contents => contents
  | Writer.other _ => ""

/-- What the writer holds after the call: the contents of the `*bytes.Buffer`, or the
chunks the sink took whole, one after the other. -/
def Result.received (r : Result) : String :=
  match r.buffer with
  | some b => b
  | none => String.join (accepted r.trace)

/-- Some two neighbouring characters are both whitespace. -/
def hasWhitespaceRun : List Char → Bool
  | a :: b :: rest => (a.isWhitespace && b.isWhitespace) || hasWhitespaceRun (b :: rest)
  | _ => false

/-- Some occurrence of `tag` is directly followed by a whitespace character. -/
def whitespaceAfter (tag : List Char) : List Char → Bool
  | [] => false
  | c :: cs =>
      (tag.isPrefixOf (c :: cs) && (((c :: cs).drop tag.length).head?.any Char.isWhitespace))
        || whitespaceAfter tag cs

/-- Some occurrence of `tag` is directly preceded by a whitespace character. -/
def whitespaceBefore (tag : List Char) : List Char → Bool
  | [] => false
  | c :: cs => (c.isWhitespace && tag.isPrefixOf cs) || whitespaceBefore tag cs

/-- A sink that takes every chunk whole. -/
def acceptingSink : List String → String → Nat × Option GoError :=
  fun _ p => (p.utf8ByteSize, none)

/-- A sink that takes the first `k` chunks whole and rejects every later one with `e`. -/
def rejectingSink (k : Nat) (e : GoError) : List String → String → Nat × Option GoError :=
  fun calls p => if calls.length < k then (p.utf8ByteSize, none) else (0, some e)

/-- What a pooled render that writes `chunks` leaves behind on a writer `w`. -/
def pooledResult (chunks : List String) : Writer → Result
  | Writer.bytesBuffer contents =>
      { outcome := Outcome.returned none
        trace := chunks.map Event.WriteString
        buffer := some (contents ++ String.join chunks) }
  | Writer.other write =>
      { outcome := copyOutcome write (String.join chunks)
        trace := [Event.GetBuffer] ++ chunks.map Event.WriteString
          ++ copyEvents write (String.join chunks) ++ [Event.ReleaseBuffer]
        buffer := none }


/-! ## The element parser

`parser/v2/elementparser.go` is not under `src/`; only its tests are. The parser below is
written from the spec (sections 3, 4.1, 4.2, 4.3 and 7) and from the inputs and results of
`elementparser_test.go`. -/

/-- A `parse.Position`: byte offset, line and column, all counted from 0. -/
structure Position where
  index : Nat
  line : Nat
  col : Nat
deriving DecidableEq, Repr

/-- A `parse.Error`: a message and the position it is about. -/
structure ParseError where
  msg : String
  pos : Position
deriving DecidableEq, Repr

/-- A `Range` of source positions. -/
structure Range where
  From : Position
  To : Position
deriving DecidableEq, Repr

/-- An `Expression`: raw host-language source text and its range. -/
structure Expression where
  value : String
  range : Range
deriving DecidableEq, Repr

/-- The closed family of attributes. -/
inductive Attribute
  | ConstantAttribute (name value : String)
  | BoolConstantAttribute (name : String)
  | ExpressionAttribute (name : String) (expression : Expression)
  | BoolExpressionAttribute (name : String) (expression : Expression)
  | ConditionalAttribute (expression : Expression) (thenAttrs elseAttrs : List Attribute)
deriving Repr

/-- The nodes an element can hold. -/
inductive Node
  | Element (name : String) (attributes : List Attribute) (children : List Node)
  | Text (value : String)
  | Whitespace
  | StringExpression (expression : Expression)
deriving Repr

/-- The three answers of a parser, `(value, matched, error)`: a value with the input left
and the position reached, no match, or an error. -/
inductive Parsed (α : Type)
  | ok (value : α) (rest : List Char) (pos : Position)
  | noMatch
  | error (e : ParseError)
deriving Repr

/-- The position after the character `c`. -/
def Position.advance (p : Position) (c : Char) : Position :=
  if c = '\n' then { index := p.index + c.utf8Size, line := p.line + 1, col := 0 }
  else { index := p.index + c.utf8Size, line := p.line, col := p.col + 1 }

/-- The position after the characters `cs`. -/
def Position.advanceAll (p : Position) (cs : List Char) : Position :=
  cs.foldl Position.advance p

/-- Modelled from the spec: the first character of a name, a letter. -/
def isNameFirst (c : Char) : Bool :=
  (65 ≤ c.toNat && c.toNat ≤ 90) || (97 ≤ c.toNat && c.toNat ≤ 122)

/-- Modelled from the spec: a character of a name: a letter, a digit or a hyphen. -/
def isNameChar (c : Char) : Bool :=
  isNameFirst c || (48 ≤ c.toNat && c.toNat ≤ 57) || c = '-'

/-- Modelled from the spec: a valid element name, a non-empty identifier of letters,
digits and hyphens that starts with a letter. -/
def validName (name : String) : Bool :=
  match name.data with
  | [] => false
  | c :: cs => isNameFirst c && cs.all isNameChar

/-- Modelled from the spec: the name parser: the longest identifier at the head of the
input, with the input left. -/
def elementName (cs : List Char) : Option (String × List Char) :=
  match cs with
  | [] => none
  | c :: rest =>
      if isNameFirst c then
        some (String.mk (c :: rest.takeWhile isNameChar), rest.dropWhile isNameChar)
      else none

/-- Optional whitespace: the input and position after the whitespace at the head. -/
def skipWhitespace (cs : List Char) (pos : Position) : List Char × Position :=
  (cs.dropWhile Char.isWhitespace, pos.advanceAll (cs.takeWhile Char.isWhitespace))

/-- The opening brace. -/
def openBrace : Char := Char.ofNat 123

/-- The closing brace. -/
def closeBrace : Char := Char.ofNat 125

/-- The text up to the closing brace that matches an opening brace already read, with the
input after that brace; `depth` counts the braces opened inside. -/
def untilCloseBrace : Nat → List Char → Option (List Char × List Char)
  | _, [] => none
  | depth, c :: cs =>
      if c = closeBrace then
        match depth with
        | 0 => some ([], cs)
        | d + 1 => (untilCloseBrace d cs).map (fun r => (c :: r.1, r.2))
      else if c = openBrace then
        (untilCloseBrace (depth + 1) cs).map (fun r => (c :: r.1, r.2))
      else (untilCloseBrace depth cs).map (fun r => (c :: r.1, r.2))

/-- A list of characters without the whitespace at its end. -/
def trimRight (cs : List Char) : List Char :=
  (cs.reverse.dropWhile Char.isWhitespace).reverse

/-- Modelled from the spec: an expression between braces, the opening brace already read
at `pos`: the raw text, without the whitespace around it, and its range. -/
def braceExpression (cs : List Char) (pos : Position) : Parsed Expression :=
  let (cs1, p1) := skipWhitespace cs pos
  match untilCloseBrace 0 cs1 with
  | none => Parsed.error { msg := "expression: missing closing brace", pos := pos }
  | some (body, rest) =>
      let value := trimRight body
      Parsed.ok { value := String.mk value, range := { From := p1, To := p1.advanceAll value } }
        rest ((p1.advanceAll body).advance closeBrace)

/-- The double quote. -/
def quote : Char := Char.ofNat 34

/-- The input after the literal `lit`, when the input starts with it. -/
def after : List Char → List Char → Option (List Char)
  | [], cs => some cs
  | _ :: _, [] => none
  | l :: ls, c :: cs => if l = c then after ls cs else none

/-- Modelled from the spec: the entity references `&lt;`, `&gt;`, `&quot;`, `&amp;` and
`&#N;` of an attribute literal, decoded to the characters they stand for. -/
def decodeEntities : Nat → List Char → List Char
  | 0, cs => cs
  | _, [] => []
  | fuel + 1, c :: cs =>
      if c = '&' then
        match after "lt;".data cs, after "gt;".data cs, after "quot;".data cs,
          after "amp;".data cs with
        | some r, _, _, _ => '<' :: decodeEntities fuel r
        | _, some r, _, _ => '>' :: decodeEntities fuel r
        | _, _, some r, _ => quote :: decodeEntities fuel r
        | _, _, _, some r => '&' :: decodeEntities fuel r
        | none, none, none, none =>
            match cs with
            | '#' :: ds =>
                let digits := ds.takeWhile Char.isDigit
                match digits, ds.dropWhile Char.isDigit with
                | _ :: _, ';' :: r =>
                    Char.ofNat (digits.foldl (fun n d => 10 * n + (d.toNat - 48)) 0)
                      :: decodeEntities fuel r
                | _, _ => c :: decodeEntities fuel cs
            | _ => c :: decodeEntities fuel cs
      else c :: decodeEntities fuel cs

/-- Modelled from the spec: one attribute, tried in the order boolean expression
(`name?=` and an expression in braces), expression (`name=` and an expression in braces),
conditional (`if expr`, attributes in braces, and an optional `else` with attributes in
braces), constant (`name="literal"`), boolean constant (bare `name`). `attrs` parses the
attributes nested in a conditional. -/
def parseAttribute (attrs : List Char → Position → Parsed (List Attribute)) (cs : List Char)
    (pos : Position) : Parsed Attribute :=
  match elementName cs with
  | none => Parsed.noMatch
  | some (name, rest) =>
      let p1 := pos.advanceAll name.data
      match after ['?', '=', openBrace] rest, after ['=', openBrace] rest with
      | some r, _ =>
          match braceExpression r (p1.advanceAll ['?', '=', openBrace]) with
          | Parsed.ok e r2 p2 => Parsed.ok (Attribute.BoolExpressionAttribute name e) r2 p2
          | Parsed.noMatch => Parsed.noMatch
          | Parsed.error e => Parsed.error e
      | none, some r =>
          match braceExpression r (p1.advanceAll ['=', openBrace]) with
          | Parsed.ok e r2 p2 => Parsed.ok (Attribute.ExpressionAttribute name e) r2 p2
          | Parsed.noMatch => Parsed.noMatch
          | Parsed.error e => Parsed.error e
      | none, none =>
          if name = "if" ∧ (rest.head?.any Char.isWhitespace) then
            let (c1, q1) := skipWhitespace rest p1
            let cond := c1.takeWhile (fun c => c ≠ openBrace)
            match c1.dropWhile (fun c => c ≠ openBrace) with
            | [] => Parsed.error { msg := "attribute if: expected an opening brace", pos := q1 }
            | ob :: c2 =>
                let expr : Expression :=
                  { value := String.mk (trimRight cond)
                    range := { From := q1, To := q1.advanceAll (trimRight cond) } }
                match attrs c2 ((q1.advanceAll cond).advance ob) with
                | Parsed.noMatch => Parsed.noMatch
                | Parsed.error e => Parsed.error e
                | Parsed.ok thenAttrs c3 q3 =>
                    let (c4, q4) := skipWhitespace c3 q3
                    match after [closeBrace] c4 with
                    | none =>
                        Parsed.error
                          { msg := "attribute if: expected a closing brace", pos := q4 }
                    | some c5 =>
                        let q5 := q4.advance closeBrace
                        let (c6, q6) := skipWhitespace c5 q5
                        match after "else".data c6 with
                        | none =>
                            Parsed.ok (Attribute.ConditionalAttribute expr thenAttrs []) c5 q5
                        | some c7 =>
                            let (c8, q8) := skipWhitespace c7 (q6.advanceAll "else".data)
                            match after [openBrace] c8 with
                            | none =>
                                Parsed.error
                                  { msg := "attribute else: expected an opening brace"
                                    pos := q8 }
                            | some c9 =>
                                match attrs c9 (q8.advance openBrace) with
                                | Parsed.noMatch => Parsed.noMatch
                                | Parsed.error e => Parsed.error e
                                | Parsed.ok elseAttrs c10 q10 =>
                                    let (c11, q11) := skipWhitespace c10 q10
                                    match after [closeBrace] c11 with
                                    | none =>
                                        Parsed.error
                                          { msg := "attribute else: expected a closing brace"
                                            pos := q11 }
                                    | some c12 =>
                                        Parsed.ok
                                          (Attribute.ConditionalAttribute expr thenAttrs
                                            elseAttrs)
                                          c12 (q11.advance closeBrace)
          else
            match after ['=', quote] rest with
            | some r =>
                let value := r.takeWhile (fun c => c ≠ quote)
                match r.dropWhile (fun c => c ≠ quote) with
                | [] =>
                    Parsed.error
                      { msg := "attribute: missing closing quote", pos := p1 }
                | q :: r2 =>
                    Parsed.ok
                      (Attribute.ConstantAttribute name
                        (String.mk (decodeEntities value.length value)))
                      r2 (((p1.advanceAll ['=', quote]).advanceAll value).advance q)
            | none => Parsed.ok (Attribute.BoolConstantAttribute name) rest p1

/-- Modelled from the spec: zero or more attributes, each after optional whitespace. When
no further attribute matches, the cursor stays where it was. -/
def parseAttributes : Nat → List Char → Position → Parsed (List Attribute)
  | 0, cs, pos => Parsed.ok [] cs pos
  | fuel + 1, cs, pos =>
      let (cs1, p1) := skipWhitespace cs pos
      match parseAttribute (parseAttributes fuel) cs1 p1 with
      | Parsed.noMatch => Parsed.ok [] cs pos
      | Parsed.error e => Parsed.error e
      | Parsed.ok a cs2 p2 =>
          match parseAttributes fuel cs2 p2 with
          | Parsed.ok more cs3 p3 => Parsed.ok (a :: more) cs3 p3
          | Parsed.noMatch => Parsed.noMatch
          | Parsed.error e => Parsed.error e

mutual
/-- An attribute named `style` given as an expression or a boolean expression, as an
attribute of the element itself or among the attributes of a conditional attribute, to any
depth. -/
def Attribute.isStyleExpression : Attribute → Bool
  | Attribute.ExpressionAttribute name _ => name = "style"
  | Attribute.BoolExpressionAttribute name _ => name = "style"
  | Attribute.ConditionalAttribute _ thenAttrs elseAttrs =>
      anyStyleExpression thenAttrs || anyStyleExpression elseAttrs
  | _ => false
/-- Some attribute of the list is an expression-valued `style`, see
`Attribute.isStyleExpression`. -/
def anyStyleExpression : List Attribute → Bool
  | [] => false
  | a :: more => a.isStyleExpression || anyStyleExpression more
end

/-- A node that is literal text of the source: a `Text` or the `Whitespace` between texts. -/
def Node.isText : Node → Bool
  | Node.Text _ => true
  | Node.Whitespace => true
  | _ => false

/-- The message of a mismatched end tag. -/
def mismatchedEndTag (openName closeName : String) : String :=
  "<" ++ openName ++ ">: mismatched end tag, expected '</" ++ openName ++ ">', got '</"
    ++ closeName ++ ">'"

/-- The message of an expression-valued `style` attribute. -/
def invalidStyleAttribute (name : String) : String :=
  "<" ++ name ++ ">: invalid style attribute: style attributes cannot be a templ expression"

/-- The message of a `script` or `style` element with non-text contents. -/
def invalidNodeContents (name : String) : String :=
  "<" ++ name
    ++ ">: invalid node contents: script and style attributes must only contain text"

/-- The message of an element whose end tag is missing; the spec gives no text for it. -/
def missingEndTag (name : String) : String :=
  "<" ++ name ++ ">: expected end tag not present or invalid tag contents"

/-- Modelled from the spec: the children of an element, up to its end tag: whitespace
between nodes is one `Whitespace` node, `<` starts a nested element (parsed by `elem`), an
opening brace starts a string expression, anything else is literal text up to the next
`<`, opening brace or end of line, without the whitespace at its end. -/
def parseChildren (elem : List Char → Position → Parsed Node) :
    Nat → List Char → Position → Parsed (List Node)
  | 0, cs, pos => Parsed.ok [] cs pos
  | _, [], pos => Parsed.ok [] [] pos
  | fuel + 1, c :: rest, pos =>
      if c = '<' then
        if rest.head? = some '/' then Parsed.ok [] (c :: rest) pos
        else
          match elem (c :: rest) pos with
          | Parsed.noMatch => Parsed.ok [] (c :: rest) pos
          | Parsed.error e => Parsed.error e
          | Parsed.ok n cs2 p2 =>
              match parseChildren elem fuel cs2 p2 with
              | Parsed.ok more cs3 p3 => Parsed.ok (n :: more) cs3 p3
              | Parsed.noMatch => Parsed.noMatch
              | Parsed.error e => Parsed.error e
      else if c = openBrace then
        match braceExpression rest (pos.advance c) with
        | Parsed.noMatch => Parsed.noMatch
        | Parsed.error e => Parsed.error e
        | Parsed.ok e cs2 p2 =>
            match parseChildren elem fuel cs2 p2 with
            | Parsed.ok more cs3 p3 => Parsed.ok (Node.StringExpression e :: more) cs3 p3
            | Parsed.noMatch => Parsed.noMatch
            | Parsed.error e => Parsed.error e
      else if c.isWhitespace then
        let (cs2, p2) := skipWhitespace (c :: rest) pos
        match parseChildren elem fuel cs2 p2 with
        | Parsed.ok more cs3 p3 => Parsed.ok (Node.Whitespace :: more) cs3 p3
        | Parsed.noMatch => Parsed.noMatch
        | Parsed.error e => Parsed.error e
      else
        let raw := (c :: rest).takeWhile (fun d => d ≠ '<' ∧ d ≠ openBrace ∧ d ≠ '\n')
        let text := trimRight raw
        match parseChildren elem fuel ((c :: rest).drop text.length) (pos.advanceAll text) with
        | Parsed.ok more cs3 p3 => Parsed.ok (Node.Text (String.mk text) :: more) cs3 p3
        | Parsed.noMatch => Parsed.noMatch
        | Parsed.error e => Parsed.error e

/-- Modelled from the spec: the element parser (`element.Parse`): `<name attr...>`, then
either `/>` or the children and the end tag `</name>`. An expression-valued `style`
attribute is an error at the opening tag, raised before the children are parsed; non-text
children of `script` or `style` are an error at the opening tag; an end tag with another
name is an error at the start of the end tag. With no fuel left nothing matches. -/
def parseElement : Nat → List Char → Position → Parsed Node
  | 0, _, _ => Parsed.noMatch
  | fuel + 1, cs, start =>
      match cs with
      | [] => Parsed.noMatch
      | lt :: cs1 =>
          if lt = '<' then
            match elementName cs1 with
            | none => Parsed.noMatch
            | some (name, cs2) =>
                match parseAttributes (cs2.length + 1) cs2
                  ((start.advance lt).advanceAll name.data) with
                | Parsed.noMatch => Parsed.noMatch
                | Parsed.error e => Parsed.error e
                | Parsed.ok attrs cs3 p3 =>
                    let (cs4, p4) := skipWhitespace cs3 p3
                    match after ['/', '>'] cs4, after ['>'] cs4 with
                    | some cs5, _ =>
                        if anyStyleExpression attrs then
                          Parsed.error { msg := invalidStyleAttribute name, pos := start }
                        else Parsed.ok (Node.Element name attrs []) cs5 (p4.advanceAll ['/', '>'])
                    | none, some cs5 =>
                        if anyStyleExpression attrs then
                          Parsed.error { msg := invalidStyleAttribute name, pos := start }
                        else
                          match parseChildren (parseElement fuel) (cs5.length + 1) cs5
                            (p4.advance '>') with
                          | Parsed.noMatch => Parsed.noMatch
                          | Parsed.error e => Parsed.error e
                          | Parsed.ok nodes cs6 p6 =>
                              if (name = "script" ∨ name = "style")
                                  ∧ nodes.any (fun n => !n.isText) then
                                Parsed.error { msg := invalidNodeContents name, pos := start }
                              else
                                match after ['<', '/'] cs6 with
                                | none =>
                                    Parsed.error { msg := missingEndTag name, pos := p6 }
                                | some cs7 =>
                                    match elementName cs7 with
                                    | none =>
                                        Parsed.error { msg := missingEndTag name, pos := p6 }
                                    | some (closeName, cs8) =>
                                        match after ['>'] cs8 with
                                        | none =>
                                            Parsed.error
                                              { msg := missingEndTag name, pos := p6 }
                                        | some cs9 =>
                                            if closeName = name then
                                              Parsed.ok (Node.Element name attrs nodes) cs9
                                                (((p6.advanceAll ['<', '/']).advanceAll
                                                  closeName.data).advance '>')
                                            else
                                              Parsed.error
                                                { msg := mismatchedEndTag name closeName
                                                  pos := p6 }
                    | none, none => Parsed.noMatch
          else Parsed.noMatch

/-- Modelled from the spec: `element.Parse(parse.NewInput(input))`: the element parser at
the start of `input`, with fuel for every character of it. -/
def element.Parse (input : String) : Parsed Node :=
  parseElement (input.length + 1) input.data { index := 0, line := 0, col := 0 }

/-! ## The writes of the `test-text-whitespace` renderers, by node -/

/-- The node a write of a generated renderer belongs to, as the comment above the write
in the generated code names it; the write of an end tag belongs to its element. -/
inductive WriteKind
  | Element
  | Text
  | Whitespace
  | StringExpression
deriving DecidableEq, Repr

/-- The writes of `WhitespaceIsAddedWithinTemplStatements`, in order, with their nodes. -/
def WhitespaceIsAddedWithinTemplStatements.writes : List (WriteKind × String) :=
  [(WriteKind.Element, "<p>"), (WriteKind.Text, "This is some text."),
    (WriteKind.Whitespace, " "), (WriteKind.Text, "So is this."), (WriteKind.Element, "</p>")]

/-- The writes of `InlineElementsAreNotPadded`, in order, with their nodes. -/
def InlineElementsAreNotPadded.writes : List (WriteKind × String) :=
  [(WriteKind.Element, "<p>"), (WriteKind.Text, "Inline text "), (WriteKind.Element, "<b>"),
    (WriteKind.Text, "is spaced properly"), (WriteKind.Element, "</b>"),
    (WriteKind.Whitespace, " "), (WriteKind.Text, "without adding extra spaces."),
    (WriteKind.Element, "</p>")]

/-- The writes of `WhiteSpaceInHTMLIsNormalised`, in order, with their nodes. -/
def WhiteSpaceInHTMLIsNormalised.writes : List (WriteKind × String) :=
  [(WriteKind.Element, "<p>"), (WriteKind.Text, "newlines and other whitespace are stripped"),
    (WriteKind.Whitespace, " "), (WriteKind.Text, "but it is normalised"),
    (WriteKind.Whitespace, " "), (WriteKind.Text, "like HTML."), (WriteKind.Element, "</p>")]

/-- The writes of `WhiteSpaceAroundValues`, in order, with their nodes. -/
def WhiteSpaceAroundValues.writes : List (WriteKind × String) :=
  [(WriteKind.Element, "<p>"), (WriteKind.Text, "templ allows "),
    (WriteKind.StringExpression, templ.EscapeString "strings"), (WriteKind.Whitespace, " "),
    (WriteKind.Text, "to be included in sentences."), (WriteKind.Element, "</p>")]

/-- The strings written for nodes of kind `k`, in order. -/
def writesOf (k : WriteKind) (ws : List (WriteKind × String)) : List String :=
  (ws.filter (fun x => x.1 = k)).map Prod.snd

/-- The string begins with a whitespace character. -/
def beginsWithWhitespace (s : String) : Bool :=
  s.data.head?.any Char.isWhitespace

/-- The string ends with a whitespace character. -/
def endsWithWhitespace (s : String) : Bool :=
  s.data.getLast?.any Char.isWhitespace

/-- The kinds of the writes that come directly after a `Text` write whose literal ends
with a whitespace character. -/
def afterTextEndingInWhitespace : List (WriteKind × String) → List WriteKind
  | [] => []
  | [_] => []
  | a :: b :: rest =>
      if a.1 = WriteKind.Text ∧ endsWithWhitespace a.2 = true then
        b.1 :: afterTextEndingInWhitespace (b :: rest)
      else afterTextEndingInWhitespace (b :: rest)

/-- The body of a pooled renderer, after the buffer set-up. -/
def Pooled.body : Pooled → Writer → St → Outcome × St
  | Pooled.render s => render.body s
  | Pooled.list items => list.body items
  | Pooled.WhitespaceIsAddedWithinTemplStatements => WhitespaceIsAddedWithinTemplStatements.body
  | Pooled.InlineElementsAreNotPadded => InlineElementsAreNotPadded.body
  | Pooled.WhiteSpaceInHTMLIsNormalised => WhiteSpaceInHTMLIsNormalised.body
  | Pooled.WhiteSpaceAroundValues => WhiteSpaceAroundValues.body

/-- The text holds no brace: the text of an expression that needs no brace matching. -/
def braceFree (e : String) : Bool :=
  e.data.all (fun c => c ≠ openBrace && c ≠ closeBrace)

/-- The text holds no double quote and no `&`: an attribute literal that stands for
itself. -/
def plainLiteral (v : String) : Bool :=
  v.data.all (fun c => c ≠ quote && c ≠ '&')

/-! ## Strings -/

theorem join_foldl (l : List String) (acc : String) :
    l.foldl (fun r s => r ++ s) acc = acc ++ String.join l := by
  induction l generalizing acc with
  | nil => simp [String.join]
  | cons a l ih =>
    simp only [List.foldl_cons, String.join]
    rw [ih, ih ("" ++ a)]
    simp [String.append_assoc]

theorem join_nil : String.join [] = "" := rfl

theorem join_cons (a : String) (l : List String) : String.join (a :: l) = a ++ String.join l := by
  have h : String.join (a :: l) = l.foldl (fun r s => r ++ s) ("" ++ a) := rfl
  rw [h, join_foldl]
  simp

theorem join_append (l m : List String) :
    String.join (l ++ m) = String.join l ++ String.join m := by
  induction l with
  | nil => simp [join_nil]
  | cons a l ih => simp [join_cons, ih, String.append_assoc]

theorem join_singleton (a : String) : String.join [a] = a := by
  simp [join_cons, join_nil]

theorem utf8ByteSize_pos_iff (s : String) : 0 < s.utf8ByteSize ↔ s ≠ "" := by
  rcases s with ⟨l⟩
  cases l with
  | nil => simp [String.utf8ByteSize, String.utf8ByteSize.go]
  | cons c cs =>
    have hc := Char.utf8Size_pos c
    have hne : (⟨c :: cs⟩ : String) ≠ "" := by
      intro h
      have := congrArg String.data h
      simp at this
    simp only [ne_eq, hne, not_false_eq_true, iff_true]
    simp [String.utf8ByteSize, String.utf8ByteSize.go]
    omega

/-! ## Buffer writes -/

theorem written_nil (st : St) : written [] st = st := by
  cases st; simp [written, join_nil]

theorem written_written (a b : List String) (st : St) :
    written b (written a st) = written (a ++ b) st := by
  simp [written, join_append, String.append_assoc]

theorem WriteString_eq (s : String) (st : St) :
    Buffer.WriteString s st = (none, written [s] st) := by
  simp [Buffer.WriteString, written, join_singleton]

theorem list_loop_eq (items : List String) (st : St) :
    list.loop items st = (none, written (list.items items) st) := by
  induction items generalizing st with
  | nil => simp [list.loop, list.items, written_nil]
  | cons a l ih =>
    simp [list.loop, WriteString_eq, written_written, ih, list.items]

theorem render_body_eq (s : String) (w : Writer) (st : St) :
    render.body s w st = copyOut w none (written [templ.EscapeString s] st) := by
  simp [render.body, WriteString_eq]

theorem list_body_eq (items : List String) (w : Writer) (st : St) :
    list.body items w st
      = copyOut w none (written ("<ol>" :: list.items items ++ ["</ol>"]) st) := by
  simp [list.body, WriteString_eq, list_loop_eq, written_written]

theorem WhitespaceIsAddedWithinTemplStatements_body_eq (w : Writer) (st : St) :
    WhitespaceIsAddedWithinTemplStatements.body w st
      = copyOut w none
          (written ["<p>", "This is some text.", " ", "So is this.", "</p>"] st) := by
  simp [WhitespaceIsAddedWithinTemplStatements.body,
    WhitespaceIsAddedWithinTemplStatements.rest, WriteString_eq, written_written]

theorem InlineElementsAreNotPadded_body_eq (w : Writer) (st : St) :
    InlineElementsAreNotPadded.body w st
      = copyOut w none
          (written ["<p>", "Inline text ", "<b>", "is spaced properly", "</b>", " ",
            "without adding extra spaces.", "</p>"] st) := by
  simp [InlineElementsAreNotPadded.body, WriteString_eq, written_written]

theorem WhiteSpaceInHTMLIsNormalised_body_eq (w : Writer) (st : St) :
    WhiteSpaceInHTMLIsNormalised.body w st
      = copyOut w none
          (written ["<p>", "newlines and other whitespace are stripped", " ",
            "but it is normalised", " ", "like HTML.", "</p>"] st) := by
  simp [WhiteSpaceInHTMLIsNormalised.body, WriteString_eq, written_written]

theorem WhiteSpaceAroundValues_body_eq (w : Writer) (st : St) :
    WhiteSpaceAroundValues.body w st
      = copyOut w none
          (written ["<p>", "templ allows ", templ.EscapeString "strings", " ",
            "to be included in sentences.", "</p>"] st) := by
  simp [WhiteSpaceAroundValues.body, WriteString_eq, written_written]

/-! ## Observations on traces -/

theorem sinkCalls_append (t u : List Event) : sinkCalls (t ++ u) = sinkCalls t ++ sinkCalls u := by
  induction t with
  | nil => rfl
  | cons e t ih => cases e <;> simp [sinkCalls, ih]

theorem accepted_append (t u : List Event) : accepted (t ++ u) = accepted t ++ accepted u := by
  induction t with
  | nil => rfl
  | cons e t ih =>
    cases e with
    | Write p n err =>
      by_cases h : n = p.utf8ByteSize ∧ err = none <;> simp [accepted, ih, h]
    | _ => simp [accepted, ih]

theorem bufferWrites_append (t u : List Event) :
    bufferWrites (t ++ u) = bufferWrites t ++ bufferWrites u := by
  induction t with
  | nil => rfl
  | cons e t ih => cases e <;> simp [bufferWrites, ih]

theorem copies_append (t u : List Event) : copies (t ++ u) = copies t + copies u := by
  induction t with
  | nil => simp [copies]
  | cons e t ih =>
    cases e with
    | Copy c => simp [copies, ih]; omega
    | _ => simp [copies, ih]

theorem sinkCalls_map_WriteString (l : List String) :
    sinkCalls (l.map Event.WriteString) = [] := by
  induction l with
  | nil => rfl
  | cons a l ih => simp [sinkCalls, ih]

theorem accepted_map_WriteString (l : List String) :
    accepted (l.map Event.WriteString) = [] := by
  induction l with
  | nil => rfl
  | cons a l ih => simp [accepted, ih]

theorem bufferWrites_map_WriteString (l : List String) :
    bufferWrites (l.map Event.WriteString) = l := by
  induction l with
  | nil => rfl
  | cons a l ih => simp [bufferWrites, ih]

theorem copies_map_WriteString (l : List String) :
    copies (l.map Event.WriteString) = 0 := by
  induction l with
  | nil => rfl
  | cons a l ih => simp [copies, ih]

theorem count_map_WriteString (l : List String) (e : Event)
    (h : ∀ p, e ≠ Event.WriteString p) : (l.map Event.WriteString).count e = 0 := by
  induction l with
  | nil => rfl
  | cons a l ih =>
    have := h a
    simp [List.count_cons, ih]
    exact fun h' => this h'.symm

/-! ## The copy at the end of a pooled render -/

theorem io_Copy_eq (write : List String → String → Nat × Option GoError) (st : St)
    (h : sinkCalls st.trace = []) :
    io.Copy write st
      = (copyOutcome write st.buf, { st with trace := st.trace ++ copyEvents write st.buf }) := by
  rcases st with ⟨b, t⟩
  simp only at h
  by_cases he : b = ""
  · subst he
    have h0 : ¬ (0 < ("" : String).utf8ByteSize) := by decide
    simp [io.Copy, copyOutcome, copyEvents, h0]
  · have hp := (utf8ByteSize_pos_iff _).2 he
    simp only [io.Copy, Sink.Write, copyOutcome, copyEvents, he, hp, sinkCalls_append, h,
      sinkCalls, List.append_nil, if_true, if_false, gt_iff_lt]
    split_ifs <;> simp

/-! ## A pooled render, whole -/

theorem withTemplBuffer_written (chunks : List String) (w : Writer)
    (body : St → Outcome × St) (h : ∀ st, body st = copyOut w none (written chunks st)) :
    withTemplBuffer w body = pooledResult chunks w := by
  cases w with
  | bytesBuffer contents =>
    simp [withTemplBuffer, h, copyOut, written, pooledResult]
  | other write =>
    have hs : sinkCalls (written chunks (templ.GetBuffer { buf := "", trace := [] })).trace
        = [] := by
      simp [written, templ.GetBuffer, sinkCalls_append, sinkCalls_map_WriteString, sinkCalls]
    simp only [withTemplBuffer, h, copyOut, io_Copy_eq write _ hs, pooledResult]
    simp [written, templ.GetBuffer, templ.ReleaseBuffer]

theorem Pooled_run_eq (c : Pooled) (w : Writer) : c.run w = pooledResult c.chunks w := by
  cases c with
  | render s => exact withTemplBuffer_written _ w _ (render_body_eq s w)
  | list items => exact withTemplBuffer_written _ w _ (list_body_eq items w)
  | WhitespaceIsAddedWithinTemplStatements =>
    exact withTemplBuffer_written _ w _ (WhitespaceIsAddedWithinTemplStatements_body_eq w)
  | InlineElementsAreNotPadded =>
    exact withTemplBuffer_written _ w _ (InlineElementsAreNotPadded_body_eq w)
  | WhiteSpaceInHTMLIsNormalised =>
    exact withTemplBuffer_written _ w _ (WhiteSpaceInHTMLIsNormalised_body_eq w)
  | WhiteSpaceAroundValues =>
    exact withTemplBuffer_written _ w _ (WhiteSpaceAroundValues_body_eq w)

theorem accepted_copyEvents (write : List String → String → Nat × Option GoError)
    (h : AcceptsAll write) (out : String) :
    accepted (copyEvents write out) = if out = "" then [] else [out] := by
  by_cases he : out = ""
  · simp [copyEvents, he, accepted]
  · simp [copyEvents, he, accepted, h [] out]

theorem sinkCalls_copyEvents (write : List String → String → Nat × Option GoError)
    (out : String) :
    sinkCalls (copyEvents write out) = if out = "" then [] else [out] := by
  by_cases he : out = ""
  · simp [copyEvents, he, sinkCalls]
  · simp [copyEvents, he, sinkCalls]

theorem bufferWrites_copyEvents (write : List String → String → Nat × Option GoError)
    (out : String) : bufferWrites (copyEvents write out) = [] := by
  by_cases he : out = ""
  · simp [copyEvents, he, bufferWrites]
  · simp [copyEvents, he, bufferWrites]

theorem join_ite_empty (out : String) :
    String.join (if out = "" then [] else [out]) = out := by
  by_cases he : out = ""
  · simp [he, join_nil]
  · simp [he, join_singleton]

theorem copyOutcome_acceptsAll (write : List String → String → Nat × Option GoError)
    (h : AcceptsAll write) (out : String) :
    copyOutcome write out = Outcome.returned none := by
  simp [copyOutcome, h [] out]

theorem pooled_acceptsAll (chunks : List String)
    (write : List String → String → Nat × Option GoError) (h : AcceptsAll write) :
    String.join (accepted (pooledResult chunks (Writer.other write)).trace)
        = String.join chunks ∧
      (pooledResult chunks (Writer.other write)).outcome = Outcome.returned none := by
  refine ⟨?_, copyOutcome_acceptsAll write h _⟩
  show String.join (accepted ([Event.GetBuffer] ++ chunks.map Event.WriteString
          ++ copyEvents write (String.join chunks) ++ [Event.ReleaseBuffer])) = _
  rw [accepted_append, accepted_append, accepted_append, accepted_map_WriteString,
    accepted_copyEvents write h]
  simp only [accepted, List.append_nil, List.nil_append, join_ite_empty]


theorem pooled_received (chunks : List String) (w : Writer) (h : w.AcceptsAll) :
    (pooledResult chunks w).received = w.contents ++ String.join chunks ∧
      (pooledResult chunks w).outcome = Outcome.returned none := by
  cases w with
  | bytesBuffer contents => simp [pooledResult, Result.received, Writer.contents]
  | other write =>
    have := pooled_acceptsAll chunks write h
    refine ⟨?_, this.2⟩
    have hb : (pooledResult chunks (Writer.other write)).buffer = none := rfl
    simp only [Result.received, hb, this.1, Writer.contents]
    simp

theorem bufferWrites_pooled (chunks : List String) (w : Writer) :
    bufferWrites (pooledResult chunks w).trace = chunks := by
  cases w with
  | bytesBuffer contents => simp [pooledResult, bufferWrites_map_WriteString]
  | other write =>
    show bufferWrites ([Event.GetBuffer] ++ chunks.map Event.WriteString
          ++ copyEvents write (String.join chunks) ++ [Event.ReleaseBuffer]) = _
    rw [bufferWrites_append, bufferWrites_append, bufferWrites_append,
      bufferWrites_map_WriteString, bufferWrites_copyEvents]
    simp [bufferWrites]

/-! ## Escaping -/

theorem data_join (l : List String) : (String.join l).data = l.flatMap String.data := by
  induction l with
  | nil => rfl
  | cons a l ih => rw [join_cons, String.data_append, ih, List.flatMap_cons]

theorem escapeChar_no_lt (c : Char) : '<' ∉ (templ.escapeChar c).data := by
  unfold templ.escapeChar
  split_ifs with h1 h2 h3 h4 h5
  · decide
  · decide
  · decide
  · decide
  · decide
  · simp [String.singleton]
    exact fun h => h3 h.symm

theorem EscapeString_no_lt (s : String) : '<' ∉ (templ.EscapeString s).data := by
  simp only [templ.EscapeString, data_join, List.mem_flatMap, List.mem_map, not_exists, not_and]
  rintro x ⟨c, _, rfl⟩
  exact escapeChar_no_lt c

theorem EscapeString_ne_li (s : String) : templ.EscapeString s ≠ "<li>" := by
  intro h
  have := EscapeString_no_lt s
  rw [h] at this
  exact this (by decide)

theorem list_items_cons (a : String) (l : List String) :
    list.items (a :: l) = ["<li>", templ.EscapeString a, "</li>"] ++ list.items l := by
  simp [list.items]

theorem join_list_items (items : List String) :
    String.join (list.items items)
      = String.join (items.map (fun item => "<li>" ++ templ.EscapeString item ++ "</li>")) := by
  induction items with
  | nil => rfl
  | cons a l ih =>
    rw [list_items_cons, join_append, ih, List.map_cons, join_cons]
    simp [join_cons, join_nil, String.append_assoc]

theorem count_li_list_items (items : List String) :
    (list.items items).count "<li>" = items.length := by
  induction items with
  | nil => rfl
  | cons a l ih =>
    rw [list_items_cons, List.count_append, ih]
    have h1 : templ.EscapeString a ≠ "<li>" := EscapeString_ne_li a
    have h2 : ("</li>" : String) ≠ "<li>" := by decide
    simp [List.count_cons, h1, h2]
    omega

/-! ## The claims on the pooled renderers -/

/-- C1: for every string `s` and every writer that accepts all writes, `render(s)` leaves
the writer with exactly `templ.EscapeString(s)` after what it held before and returns a
nil error; `templ.EscapeString` replaces each of `& < > " '` by its entity reference and
leaves every other character as it is. -/
theorem render_delivers_EscapeString (s : String) (w : Writer) (h : w.AcceptsAll) :
    (render s w).received = w.contents ++ templ.EscapeString s ∧
    (render s w).outcome = Outcome.returned none ∧
    (templ.EscapeString s).data = s.data.flatMap (fun c => (templ.escapeChar c).data) ∧
    templ.escapeChar '&' = "&amp;" ∧ templ.escapeChar '<' = "&lt;" ∧
    templ.escapeChar '>' = "&gt;" ∧ templ.escapeChar (Char.ofNat 34) = "&quot;" ∧
    templ.escapeChar (Char.ofNat 39) = "&#39;" ∧
    (∀ c : Char, c ∉ ['&', '<', '>', Char.ofNat 34, Char.ofNat 39] →
      templ.escapeChar c = String.singleton c) := by
  have hr := pooled_received (Pooled.render s).chunks w h
  rw [← Pooled_run_eq] at hr
  refine ⟨?_, hr.2, ?_, by decide, by decide, by decide, by decide, by decide, ?_⟩
  · simpa [Pooled.chunks, join_singleton] using hr.1
  · rw [templ.EscapeString, data_join, List.flatMap_map]
  · intro c hc
    simp only [List.mem_cons, List.mem_singleton, not_or, List.not_mem_nil, or_false] at hc
    simp [templ.escapeChar, hc]

/-- Witness of C1: a sink that takes every chunk whole, and the string `a<b & c`. -/
theorem render_delivers_EscapeString_witness :
    Writer.AcceptsAll (Writer.other acceptingSink) ∧
    (render "a<b & c" (Writer.other acceptingSink)).received
      = "" ++ templ.EscapeString "a<b & c" ∧
    (render "a<b & c" (Writer.other acceptingSink)).outcome = Outcome.returned none :=
  ⟨fun _ _ => rfl,
    (render_delivers_EscapeString "a<b & c" (Writer.other acceptingSink) (fun _ _ => rfl)).1,
    (render_delivers_EscapeString "a<b & c" (Writer.other acceptingSink)
      (fun _ _ => rfl)).2.1⟩

/-- C3: for every list `items` and every writer that accepts all writes, `list(items)`
leaves the writer with `<ol>`, then `<li>` ++ `templ.EscapeString(item)` ++ `</li>` for each
item in list order, then `</ol>`, after what it held before, and returns nil; the empty list
gives `<ol></ol>`, and the number of `<li>` written is `len(items)`. -/
theorem list_delivers_items (items : List String) (w : Writer) (h : w.AcceptsAll) :
    (list items w).received = w.contents ++ ("<ol>" ++ String.join (items.map
      (fun item => "<li>" ++ templ.EscapeString item ++ "</li>")) ++ "</ol>") ∧
    (list items w).outcome = Outcome.returned none ∧
    (list [] w).received = w.contents ++ "<ol></ol>" ∧
    (bufferWrites (list items w).trace).count "<li>" = items.length := by
  have run : ∀ l : List String, list l w = pooledResult (Pooled.list l).chunks w :=
    fun l => Pooled_run_eq (Pooled.list l) w
  have hr := pooled_received (Pooled.list items).chunks w h
  have h0 := pooled_received (Pooled.list []).chunks w h
  rw [← run] at hr h0
  refine ⟨?_, hr.2, ?_, ?_⟩
  · rw [hr.1]
    simp only [Pooled.chunks, join_cons, join_append, join_list_items, join_nil,
      String.append_assoc, String.append_empty]
  · rw [h0.1]
    rfl
  · rw [run, bufferWrites_pooled]
    have h1 : ("<ol>" : String) ≠ "<li>" := by decide
    have h2 : ("</ol>" : String) ≠ "<li>" := by decide
    simp [Pooled.chunks, List.count_cons, List.count_append, count_li_list_items, h1, h2]

/-- Witness of C3: a sink that takes every chunk whole, and two items. -/
theorem list_delivers_items_witness :
    Writer.AcceptsAll (Writer.other acceptingSink) ∧
    (list ["a", "<b>"] (Writer.other acceptingSink)).received
      = "" ++ ("<ol>" ++ String.join (["a", "<b>"].map
          (fun item => "<li>" ++ templ.EscapeString item ++ "</li>")) ++ "</ol>") ∧
    (bufferWrites (list ["a", "<b>"] (Writer.other acceptingSink)).trace).count "<li>"
      = ["a", "<b>"].length :=
  ⟨fun _ _ => rfl,
    (list_delivers_items ["a", "<b>"] (Writer.other acceptingSink) (fun _ _ => rfl)).1,
    (list_delivers_items ["a", "<b>"] (Writer.other acceptingSink) (fun _ _ => rfl)).2.2.2⟩

/-- C8: rendering `render(s)` for `s` the string of the five characters `<`, `b`, `>`,
the double quote, the apostrophe and `&`, to a writer that accepts all writes, leaves it
with exactly `&lt;b&gt;&quot;&#39;&amp;` after what it held before. -/
theorem render_escaping_example (w : Writer) (h : w.AcceptsAll) :
    (render "<b>\"'&" w).received = w.contents ++ "&lt;b&gt;&quot;&#39;&amp;" ∧
    (render "<b>\"'&" w).outcome = Outcome.returned none := by
  have hr := pooled_received (Pooled.render "<b>\"'&").chunks w h
  rw [← Pooled_run_eq] at hr
  have hj : String.join (Pooled.render "<b>\"'&").chunks = "&lt;b&gt;&quot;&#39;&amp;" := by
    decide
  rw [hj] at hr
  exact hr

/-- Witness of C8: a sink that takes every chunk whole. -/
theorem render_escaping_example_witness :
    Writer.AcceptsAll (Writer.other acceptingSink) ∧
    (render "<b>\"'&" (Writer.other acceptingSink)).received
      = "" ++ "&lt;b&gt;&quot;&#39;&amp;" :=
  ⟨fun _ _ => rfl, (render_escaping_example (Writer.other acceptingSink) (fun _ _ => rfl)).1⟩

/-- C9: for each of the four components of `test-text-whitespace` and every writer that
accepts all writes, what the writer gets is the component's own `...Expected` constant,
character for character, and the render returns nil; each of these outputs has no two
neighbouring whitespace characters, no whitespace directly after `<p>` and none directly
before `</p>`. -/
theorem whitespace_components_render_Expected (w : Writer) (h : w.AcceptsAll) :
    ((WhitespaceIsAddedWithinTemplStatements w).received
        = w.contents ++ WhitespaceIsAddedWithinTemplStatementsExpected ∧
      (WhitespaceIsAddedWithinTemplStatements w).outcome = Outcome.returned none ∧
      (InlineElementsAreNotPadded w).received = w.contents ++ InlineElementsAreNotPaddedExpected ∧
      (InlineElementsAreNotPadded w).outcome = Outcome.returned none ∧
      (WhiteSpaceInHTMLIsNormalised w).received
        = w.contents ++ WhiteSpaceInHTMLIsNormalisedExpected ∧
      (WhiteSpaceInHTMLIsNormalised w).outcome = Outcome.returned none ∧
      (WhiteSpaceAroundValues w).received = w.contents ++ WhiteSpaceAroundValuesExpected ∧
      (WhiteSpaceAroundValues w).outcome = Outcome.returned none) ∧
    (hasWhitespaceRun WhitespaceIsAddedWithinTemplStatementsExpected.data = false ∧
      hasWhitespaceRun InlineElementsAreNotPaddedExpected.data = false ∧
      hasWhitespaceRun WhiteSpaceInHTMLIsNormalisedExpected.data = false ∧
      hasWhitespaceRun WhiteSpaceAroundValuesExpected.data = false) ∧
    (whitespaceAfter "<p>".data WhitespaceIsAddedWithinTemplStatementsExpected.data = false ∧
      whitespaceAfter "<p>".data InlineElementsAreNotPaddedExpected.data = false ∧
      whitespaceAfter "<p>".data WhiteSpaceInHTMLIsNormalisedExpected.data = false ∧
      whitespaceAfter "<p>".data WhiteSpaceAroundValuesExpected.data = false) ∧
    (whitespaceBefore "</p>".data WhitespaceIsAddedWithinTemplStatementsExpected.data = false ∧
      whitespaceBefore "</p>".data InlineElementsAreNotPaddedExpected.data = false ∧
      whitespaceBefore "</p>".data WhiteSpaceInHTMLIsNormalisedExpected.data = false ∧
      whitespaceBefore "</p>".data WhiteSpaceAroundValuesExpected.data = false) := by
  have h1 := pooled_received Pooled.WhitespaceIsAddedWithinTemplStatements.chunks w h
  have h2 := pooled_received Pooled.InlineElementsAreNotPadded.chunks w h
  have h3 := pooled_received Pooled.WhiteSpaceInHTMLIsNormalised.chunks w h
  have h4 := pooled_received Pooled.WhiteSpaceAroundValues.chunks w h
  rw [← Pooled_run_eq] at h1 h2 h3 h4
  have j1 : String.join Pooled.WhitespaceIsAddedWithinTemplStatements.chunks
      = WhitespaceIsAddedWithinTemplStatementsExpected := by decide
  have j2 : String.join Pooled.InlineElementsAreNotPadded.chunks
      = InlineElementsAreNotPaddedExpected := by decide
  have j3 : String.join Pooled.WhiteSpaceInHTMLIsNormalised.chunks
      = WhiteSpaceInHTMLIsNormalisedExpected := by decide
  have j4 : String.join Pooled.WhiteSpaceAroundValues.chunks
      = WhiteSpaceAroundValuesExpected := by decide
  rw [j1] at h1
  rw [j2] at h2
  rw [j3] at h3
  rw [j4] at h4
  exact ⟨⟨h1.1, h1.2, h2.1, h2.2, h3.1, h3.2, h4.1, h4.2⟩, by decide, by decide, by decide⟩

/-- Witness of C9: a sink that takes every chunk whole. -/
theorem whitespace_components_render_Expected_witness :
    Writer.AcceptsAll (Writer.other acceptingSink) ∧
    (WhiteSpaceInHTMLIsNormalised (Writer.other acceptingSink)).received
      = "" ++ WhiteSpaceInHTMLIsNormalisedExpected ∧
    (WhiteSpaceAroundValues (Writer.other acceptingSink)).received
      = "" ++ WhiteSpaceAroundValuesExpected :=
  ⟨fun _ _ => rfl,
    (whitespace_components_render_Expected (Writer.other acceptingSink)
      (fun _ _ => rfl)).1.2.2.2.2.1,
    (whitespace_components_render_Expected (Writer.other acceptingSink)
      (fun _ _ => rfl)).1.2.2.2.2.2.2.1⟩

theorem copies_copyEvents (write : List String → String → Nat × Option GoError)
    (out : String) : copies (copyEvents write out) = 1 := by
  by_cases he : out = "" <;> simp [copyEvents, he, copies]

theorem count_copyEvents (write : List String → String → Nat × Option GoError)
    (out : String) (e : Event) (h1 : ∀ p, e ≠ Event.Copy p) (h2 : ∀ p n err, e ≠ Event.Write p n err) :
    (copyEvents write out).count e = 0 := by
  by_cases he : out = ""
  · simp [copyEvents, he, List.count_cons]
    exact fun h => h1 _ h.symm
  · simp [copyEvents, he, List.count_cons]
    exact ⟨fun h => h2 _ _ _ h.symm, fun h => h1 _ h.symm⟩

/-- C4: for each pooled-buffer renderer, every input and every sink that is not a
`*bytes.Buffer`, the effects are, in this order: one `GetBuffer`, the writes of the body, all
into the scratch buffer, one `io.Copy` whose content is everything the body wrote, the one
`Write` on the real sink that this copy makes (none when the output is empty), and the
`ReleaseBuffer`. When the writer is a `*bytes.Buffer`, the effects are the writes of the
body alone: no buffer is acquired, nothing is copied, and the output is appended to the
contents of that buffer. -/
theorem pooled_renderer_copies_once (c : Pooled) :
    (∀ write : List String → String → Nat × Option GoError,
      (c.run (Writer.other write)).trace
        = [Event.GetBuffer] ++ c.chunks.map Event.WriteString
          ++ [Event.Copy (String.join c.chunks)]
          ++ (if String.join c.chunks = "" then []
              else [Event.Write (String.join c.chunks) (write [] (String.join c.chunks)).1
                (write [] (String.join c.chunks)).2])
          ++ [Event.ReleaseBuffer] ∧
      bufferWrites (c.run (Writer.other write)).trace = c.chunks ∧
      copies (c.run (Writer.other write)).trace = 1 ∧
      sinkCalls (c.run (Writer.other write)).trace
        = (if String.join c.chunks = "" then [] else [String.join c.chunks])) ∧
    (∀ contents : String,
      (c.run (Writer.bytesBuffer contents)).trace = c.chunks.map Event.WriteString ∧
      gets (c.run (Writer.bytesBuffer contents)).trace = 0 ∧
      copies (c.run (Writer.bytesBuffer contents)).trace = 0 ∧
      (c.run (Writer.bytesBuffer contents)).buffer
        = some (contents ++ String.join c.chunks)) := by
  constructor
  · intro write
    have ht : (c.run (Writer.other write)).trace
        = [Event.GetBuffer] ++ c.chunks.map Event.WriteString
          ++ copyEvents write (String.join c.chunks) ++ [Event.ReleaseBuffer] := by
      rw [Pooled_run_eq]; rfl
    refine ⟨?_, ?_, ?_, ?_⟩
    · rw [ht]; simp [copyEvents]
    · rw [Pooled_run_eq, bufferWrites_pooled]
    · rw [ht, copies_append, copies_append, copies_append, copies_map_WriteString,
        copies_copyEvents]
      rfl
    · rw [ht, sinkCalls_append, sinkCalls_append, sinkCalls_append, sinkCalls_map_WriteString,
        sinkCalls_copyEvents]
      simp [sinkCalls]
  · intro contents
    have ht : (c.run (Writer.bytesBuffer contents)).trace = c.chunks.map Event.WriteString := by
      rw [Pooled_run_eq]; rfl
    refine ⟨ht, ?_, ?_, ?_⟩
    · rw [ht]; exact count_map_WriteString _ _ (fun p => by simp)
    · rw [ht]; exact copies_map_WriteString _
    · rw [Pooled_run_eq]; rfl

/-- C5: for each pooled-buffer renderer, every input and every behaviour of a sink that is
not a `*bytes.Buffer`, the render acquires one buffer, first of all, and releases it
once, last of all, however the render ends (nil, an error, a failed copy); when the writer
is a `*bytes.Buffer`, the pool is neither acquired from nor released to. The last lines
are a render whose copy fails: the error comes back and the buffer is released once. -/
theorem pooled_renderer_releases_once (c : Pooled) :
    (∀ write : List String → String → Nat × Option GoError,
      gets (c.run (Writer.other write)).trace = 1 ∧
      releases (c.run (Writer.other write)).trace = 1 ∧
      (c.run (Writer.other write)).trace.head? = some Event.GetBuffer ∧
      (c.run (Writer.other write)).trace.getLast? = some Event.ReleaseBuffer) ∧
    (∀ contents : String,
      gets (c.run (Writer.bytesBuffer contents)).trace = 0 ∧
      releases (c.run (Writer.bytesBuffer contents)).trace = 0) ∧
    (render "x" (Writer.other (rejectingSink 0 (GoError.mk "closed")))).outcome
      = Outcome.returned (some (GoError.mk "closed")) ∧
    releases (render "x" (Writer.other (rejectingSink 0 (GoError.mk "closed")))).trace = 1 := by
  refine ⟨?_, ?_, by decide, by decide⟩
  · intro write
    have ht : (c.run (Writer.other write)).trace
        = [Event.GetBuffer] ++ c.chunks.map Event.WriteString
          ++ copyEvents write (String.join c.chunks) ++ [Event.ReleaseBuffer] := by
      rw [Pooled_run_eq]; rfl
    rw [ht]
    refine ⟨?_, ?_, ?_, ?_⟩
    · simp only [gets, List.count_append,
        count_map_WriteString c.chunks Event.GetBuffer (fun p => by simp),
        count_copyEvents write _ Event.GetBuffer (fun p => by simp) (fun p n e => by simp)]
      decide
    · simp only [releases, List.count_append,
        count_map_WriteString c.chunks Event.ReleaseBuffer (fun p => by simp),
        count_copyEvents write _ Event.ReleaseBuffer (fun p => by simp) (fun p n e => by simp)]
      decide
    · simp
    · rw [List.getLast?_concat]
  · intro contents
    have ht : (c.run (Writer.bytesBuffer contents)).trace = c.chunks.map Event.WriteString := by
      rw [Pooled_run_eq]; rfl
    rw [ht]
    exact ⟨count_map_WriteString _ _ (fun p => by simp),
      count_map_WriteString _ _ (fun p => by simp)⟩


/-! ## `BasicTemplate`: ten writes straight on the writer -/

theorem return_err_eq (err : Option GoError) (st : St) :
    (if err ≠ none then (err, st) else (err, st))
      = (if err ≠ none then (err, st) else ((none : Option GoError), st)) := by
  cases err <;> simp

theorem BasicTemplate_body_eq (url : String) (w : Writer) (st : St) :
    BasicTemplate.body url w st = writeAll w (BasicTemplate.chunks url) st := by
  unfold BasicTemplate.body
  simp -zeta only [return_err_eq]
  rfl

theorem writeAll_bytesBuffer (contents : String) (chunks : List String) (st : St) :
    writeAll (Writer.bytesBuffer contents) chunks st = (none, written chunks st) := by
  induction chunks generalizing st with
  | nil => simp [writeAll, written_nil]
  | cons c cs ih => simp [writeAll, io.WriteString, WriteString_eq, ih, written_written]

/-- `writeAll` on a sink none of whose answers is an error: every chunk is offered. -/
theorem writeAll_no_error (write : List String → String → Nat × Option GoError)
    (cs : List String) (st : St)
    (h : ∀ j, j < cs.length → (write (sinkCalls st.trace ++ cs.take j) (cs.getD j "")).2 = none) :
    (writeAll (Writer.other write) cs st).1 = none ∧
    sinkCalls (writeAll (Writer.other write) cs st).2.trace = sinkCalls st.trace ++ cs ∧
    (writeAll (Writer.other write) cs st).2.trace.length = st.trace.length + cs.length := by
  induction cs generalizing st with
  | nil => simp [writeAll]
  | cons c cs ih =>
    have h0 := h 0 (by simp)
    simp only [List.take_zero, List.append_nil, List.getD_cons_zero] at h0
    have hs : sinkCalls (Sink.Write write c st).2.trace = sinkCalls st.trace ++ [c] := by
      simp [Sink.Write, sinkCalls_append, sinkCalls]
    have hl : (Sink.Write write c st).2.trace.length = st.trace.length + 1 := by
      simp [Sink.Write]
    have ih' := ih (Sink.Write write c st).2 (by
      intro j hj
      have := h (j + 1) (by simpa using hj)
      rw [hs]
      simpa using this)
    have hw : writeAll (Writer.other write) (c :: cs) st
        = writeAll (Writer.other write) cs (Sink.Write write c st).2 := by
      simp [writeAll, io.WriteString, Sink.Write, h0]
    rw [hw, ih'.1, ih'.2.1, ih'.2.2, hs, hl]
    simp
    omega

/-- `writeAll` on a sink whose first error is the answer to chunk `k`: that error comes
back and chunk `k` is the last one offered. -/
theorem writeAll_first_error (write : List String → String → Nat × Option GoError)
    (cs : List String) (st : St) (k : Nat) (e : GoError) (hk : k < cs.length)
    (h : ∀ j, j < k → (write (sinkCalls st.trace ++ cs.take j) (cs.getD j "")).2 = none)
    (he : (write (sinkCalls st.trace ++ cs.take k) (cs.getD k "")).2 = some e) :
    (writeAll (Writer.other write) cs st).1 = some e ∧
    sinkCalls (writeAll (Writer.other write) cs st).2.trace
      = sinkCalls st.trace ++ cs.take (k + 1) ∧
    (writeAll (Writer.other write) cs st).2.trace.length = st.trace.length + (k + 1) := by
  induction cs generalizing st k with
  | nil => simp at hk
  | cons c cs ih =>
    have hs : sinkCalls (Sink.Write write c st).2.trace = sinkCalls st.trace ++ [c] := by
      simp [Sink.Write, sinkCalls_append, sinkCalls]
    have hl : (Sink.Write write c st).2.trace.length = st.trace.length + 1 := by
      simp [Sink.Write]
    cases k with
    | zero =>
      simp only [List.take_zero, List.append_nil, List.getD_cons_zero] at he
      have hw : writeAll (Writer.other write) (c :: cs) st
          = (some e, (Sink.Write write c st).2) := by
        simp [writeAll, io.WriteString, Sink.Write, he]
      rw [hw]
      exact ⟨rfl, by simpa using hs, by simpa using hl⟩
    | succ k =>
      have h0 := h 0 (by simp)
      simp only [List.take_zero, List.append_nil, List.getD_cons_zero] at h0
      have hw : writeAll (Writer.other write) (c :: cs) st
          = writeAll (Writer.other write) cs (Sink.Write write c st).2 := by
        simp [writeAll, io.WriteString, Sink.Write, h0]
      have ih' := ih (Sink.Write write c st).2 k (by simpa using hk)
        (by
          intro j hj
          have := h (j + 1) (by omega)
          rw [hs]
          simpa using this)
        (by
          rw [hs]
          simpa using he)
      rw [hw, ih'.1, ih'.2.1, ih'.2.2, hs, hl]
      simp
      omega

theorem writeAll_acceptsAll (write : List String → String → Nat × Option GoError)
    (h : AcceptsAll write) (cs : List String) (st : St) :
    (writeAll (Writer.other write) cs st).1 = none ∧
    accepted (writeAll (Writer.other write) cs st).2.trace = accepted st.trace ++ cs := by
  induction cs generalizing st with
  | nil => simp [writeAll]
  | cons c cs ih =>
    have hw : writeAll (Writer.other write) (c :: cs) st
        = writeAll (Writer.other write) cs (Sink.Write write c st).2 := by
      simp [writeAll, io.WriteString, Sink.Write, h _ _]
    have ha : accepted (Sink.Write write c st).2.trace = accepted st.trace ++ [c] := by
      simp [Sink.Write, accepted_append, accepted, h _ _]
    rw [hw, (ih _).1, (ih _).2, ha]
    simp

/-- `writeAll` on a sink that takes chunks `0 .. k-1` whole and rejects chunk `k`: the sink
has accepted exactly the first `k` chunks. -/
theorem writeAll_accepted_prefix (write : List String → String → Nat × Option GoError)
    (cs : List String) (st : St) (k : Nat) (e : GoError) (hk : k < cs.length)
    (h : ∀ j, j < k → write (sinkCalls st.trace ++ cs.take j) (cs.getD j "")
      = ((cs.getD j "").utf8ByteSize, none))
    (he : (write (sinkCalls st.trace ++ cs.take k) (cs.getD k "")).2 = some e) :
    accepted (writeAll (Writer.other write) cs st).2.trace = accepted st.trace ++ cs.take k := by
  induction cs generalizing st k with
  | nil => simp at hk
  | cons c cs ih =>
    have hs : sinkCalls (Sink.Write write c st).2.trace = sinkCalls st.trace ++ [c] := by
      simp [Sink.Write, sinkCalls_append, sinkCalls]
    cases k with
    | zero =>
      simp only [List.take_zero, List.append_nil, List.getD_cons_zero] at he
      have hw : writeAll (Writer.other write) (c :: cs) st
          = (some e, (Sink.Write write c st).2) := by
        simp [writeAll, io.WriteString, Sink.Write, he]
      rw [hw]
      simp [Sink.Write, accepted_append, accepted, he]
    | succ k =>
      have h0 := h 0 (by simp)
      simp only [List.take_zero, List.append_nil, List.getD_cons_zero] at h0
      have hw : writeAll (Writer.other write) (c :: cs) st
          = writeAll (Writer.other write) cs (Sink.Write write c st).2 := by
        simp [writeAll, io.WriteString, Sink.Write, h0]
      have ha : accepted (Sink.Write write c st).2.trace = accepted st.trace ++ [c] := by
        simp [Sink.Write, accepted_append, accepted, h0]
      have ih' := ih (Sink.Write write c st).2 k (by simpa using hk)
        (by
          intro j hj
          have := h (j + 1) (by omega)
          rw [hs]
          simpa using this)
        (by
          rw [hs]
          simpa using he)
      rw [hw, ih', ha]
      simp

/-- `writeAll` on a sink adds nothing but `Write` events to the trace. -/
theorem writeAll_only_writes (write : List String → String → Nat × Option GoError)
    (cs : List String) (st : St) :
    ∀ ev ∈ (writeAll (Writer.other write) cs st).2.trace,
      ev ∈ st.trace ∨ ∃ p n err, ev = Event.Write p n err := by
  induction cs generalizing st with
  | nil => intro ev hev; exact Or.inl (by simpa [writeAll] using hev)
  | cons c cs ih =>
    intro ev hev
    by_cases hr : (write (sinkCalls st.trace) c).2 = none
    · have hw : writeAll (Writer.other write) (c :: cs) st
          = writeAll (Writer.other write) cs (Sink.Write write c st).2 := by
        simp [writeAll, io.WriteString, Sink.Write, hr]
      rw [hw] at hev
      rcases ih _ ev hev with h1 | h1
      · simp only [Sink.Write, List.mem_append, List.mem_singleton] at h1
        rcases h1 with h1 | h1
        · exact Or.inl h1
        · exact Or.inr ⟨_, _, _, h1⟩
      · exact Or.inr h1
    · have hw : writeAll (Writer.other write) (c :: cs) st
          = ((write (sinkCalls st.trace) c).2, (Sink.Write write c st).2) := by
        simp [writeAll, io.WriteString, Sink.Write, hr]
      rw [hw] at hev
      simp only [Sink.Write, List.mem_append, List.mem_singleton] at hev
      rcases hev with h1 | h1
      · exact Or.inl h1
      · exact Or.inr ⟨_, _, _, h1⟩

theorem BasicTemplate_other (url : String) (write : List String → String → Nat × Option GoError) :
    (BasicTemplate url (Writer.other write)).outcome
      = Outcome.returned (writeAll (Writer.other write) (BasicTemplate.chunks url)
          { buf := "", trace := [] }).1 ∧
    (BasicTemplate url (Writer.other write)).trace
      = (writeAll (Writer.other write) (BasicTemplate.chunks url)
          { buf := "", trace := [] }).2.trace ∧
    (BasicTemplate url (Writer.other write)).buffer = none := by
  simp [BasicTemplate, BasicTemplate_body_eq]

theorem BasicTemplate_bytesBuffer (url : String) (contents : String) :
    BasicTemplate url (Writer.bytesBuffer contents)
      = { outcome := Outcome.returned none
          trace := (BasicTemplate.chunks url).map Event.WriteString
          buffer := some (contents ++ String.join (BasicTemplate.chunks url)) } := by
  simp [BasicTemplate, BasicTemplate_body_eq, writeAll_bytesBuffer, written]

theorem BasicTemplate_chunks_length (url : String) : (BasicTemplate.chunks url).length = 10 :=
  rfl

/-- C6: for every `url` and every writer: if the sink's answer to the write of chunk `k`
(counting from 0, so the `k+1`-th of the ten writes) is the first one with an error `e`,
then `BasicTemplate(url)` returns exactly `e` and that write is the last effect, so
exactly `k+1` writes were attempted; if no answer carries an error the render returns nil
after exactly ten writes; a `*bytes.Buffer` never rejects, and gets ten writes. -/
theorem BasicTemplate_stops_at_first_error (url : String)
    (write : List String → String → Nat × Option GoError) :
    (∀ (k : Nat) (e : GoError), k < 10 →
      (∀ j, j < k → (write ((BasicTemplate.chunks url).take j)
        ((BasicTemplate.chunks url).getD j "")).2 = none) →
      (write ((BasicTemplate.chunks url).take k)
        ((BasicTemplate.chunks url).getD k "")).2 = some e →
      (BasicTemplate url (Writer.other write)).outcome = Outcome.returned (some e) ∧
      sinkCalls (BasicTemplate url (Writer.other write)).trace
        = (BasicTemplate.chunks url).take (k + 1) ∧
      (BasicTemplate url (Writer.other write)).trace.length = k + 1) ∧
    ((∀ j, j < 10 → (write ((BasicTemplate.chunks url).take j)
        ((BasicTemplate.chunks url).getD j "")).2 = none) →
      (BasicTemplate url (Writer.other write)).outcome = Outcome.returned none ∧
      sinkCalls (BasicTemplate url (Writer.other write)).trace = BasicTemplate.chunks url ∧
      (BasicTemplate url (Writer.other write)).trace.length = 10) ∧
    (∀ contents : String,
      (BasicTemplate url (Writer.bytesBuffer contents)).outcome = Outcome.returned none ∧
      (BasicTemplate url (Writer.bytesBuffer contents)).trace
        = (BasicTemplate.chunks url).map Event.WriteString) ∧
    (BasicTemplate.chunks url).length = 10 := by
  obtain ⟨ho, ht, -⟩ := BasicTemplate_other url write
  refine ⟨?_, ?_, ?_, rfl⟩
  · intro k e hk hpre hrej
    have := writeAll_first_error write (BasicTemplate.chunks url) { buf := "", trace := [] } k e
      (by rw [BasicTemplate_chunks_length]; exact hk)
      (by simpa [sinkCalls] using hpre) (by simpa [sinkCalls] using hrej)
    rw [ho, ht, this.1, this.2.1, this.2.2]
    simp [sinkCalls]
  · intro hall
    have := writeAll_no_error write (BasicTemplate.chunks url) { buf := "", trace := [] }
      (by rw [BasicTemplate_chunks_length]; simpa [sinkCalls] using hall)
    rw [ho, ht, this.1, this.2.1, this.2.2]
    simp [sinkCalls, BasicTemplate_chunks_length]
  · intro contents
    rw [BasicTemplate_bytesBuffer]
    exact ⟨rfl, rfl⟩

/-- Witness of C6: a sink that takes two chunks and rejects the third with `closed`. -/
theorem BasicTemplate_stops_at_first_error_witness :
    (2 < 10 ∧
      (rejectingSink 2 (GoError.mk "closed") [] "<div>").2 = none ∧
      (rejectingSink 2 (GoError.mk "closed") ["<div>"] "<a").2 = none ∧
      (rejectingSink 2 (GoError.mk "closed") ["<div>", "<a"] " href=").2
        = some (GoError.mk "closed")) ∧
    ((BasicTemplate "x" (Writer.other (rejectingSink 2 (GoError.mk "closed")))).outcome
        = Outcome.returned (some (GoError.mk "closed")) ∧
      sinkCalls (BasicTemplate "x" (Writer.other (rejectingSink 2 (GoError.mk "closed")))).trace
        = (BasicTemplate.chunks "x").take (2 + 1) ∧
      (BasicTemplate "x" (Writer.other (rejectingSink 2 (GoError.mk "closed")))).trace.length
        = 2 + 1) :=
  ⟨⟨by decide, by decide, by decide, by decide⟩,
    (BasicTemplate_stops_at_first_error "x" (rejectingSink 2 (GoError.mk "closed"))).1 2
      (GoError.mk "closed") (by decide) (by decide) (by decide)⟩

/-- Counterexample to C7: on a sink that takes everything, `BasicTemplate("x")` makes ten
writes on the real sink, not one; on a sink that takes one chunk and rejects the next,
it returns the error after the real sink has accepted `<div>`, a proper prefix of the
fragment. -/
theorem BasicTemplate_writes_on_the_real_sink :
    sinkCalls (BasicTemplate "x" (Writer.other acceptingSink)).trace
      = ["<div>", "<a", " href=", "\"", "x", "\"", ">", "text", "</a>", "</div>"] ∧
    copies (BasicTemplate "x" (Writer.other acceptingSink)).trace = 0 ∧
    (BasicTemplate "x" (Writer.other (rejectingSink 1 (GoError.mk "closed")))).outcome
      = Outcome.returned (some (GoError.mk "closed")) ∧
    accepted (BasicTemplate "x" (Writer.other (rejectingSink 1 (GoError.mk "closed")))).trace
      = ["<div>"] := by
  decide

/-- C7 as amended: for every `url` and every sink that is not a `*bytes.Buffer`,
`BasicTemplate(url)` uses no scratch buffer and makes no copy: every effect is a `Write` on
the real sink, of the ten chunks in order, up to the first rejected one; a sink that
accepts all writes gets the ten chunks in ten writes; and when the sink takes chunks
`0 .. k-1` whole and rejects chunk `k` with `e`, the render returns `e` and the real sink has
accepted exactly the first `k` chunks. -/
theorem BasicTemplate_writes_unbuffered (url : String)
    (write : List String → String → Nat × Option GoError) :
    gets (BasicTemplate url (Writer.other write)).trace = 0 ∧
    copies (BasicTemplate url (Writer.other write)).trace = 0 ∧
    releases (BasicTemplate url (Writer.other write)).trace = 0 ∧
    (∀ ev ∈ (BasicTemplate url (Writer.other write)).trace, ∃ p n err, ev = Event.Write p n err) ∧
    (AcceptsAll write →
      (BasicTemplate url (Writer.other write)).outcome = Outcome.returned none ∧
      accepted (BasicTemplate url (Writer.other write)).trace = BasicTemplate.chunks url ∧
      (BasicTemplate url (Writer.other write)).trace.length = 10) ∧
    (∀ (k : Nat) (e : GoError), k < 10 →
      (∀ j, j < k → write ((BasicTemplate.chunks url).take j)
        ((BasicTemplate.chunks url).getD j "")
          = (((BasicTemplate.chunks url).getD j "").utf8ByteSize, none)) →
      (write ((BasicTemplate.chunks url).take k)
        ((BasicTemplate.chunks url).getD k "")).2 = some e →
      (BasicTemplate url (Writer.other write)).outcome = Outcome.returned (some e) ∧
      accepted (BasicTemplate url (Writer.other write)).trace
        = (BasicTemplate.chunks url).take k ∧
      (BasicTemplate url (Writer.other write)).trace.length = k + 1) := by
  obtain ⟨ho, ht, -⟩ := BasicTemplate_other url write
  have hw : ∀ ev ∈ (BasicTemplate url (Writer.other write)).trace,
      ∃ p n err, ev = Event.Write p n err := by
    intro ev hev
    rw [ht] at hev
    rcases writeAll_only_writes write _ _ ev hev with h | h
    · simp at h
    · exact h
  have hcount : ∀ e : Event, (∀ p n err, e ≠ Event.Write p n err) →
      (BasicTemplate url (Writer.other write)).trace.count e = 0 := by
    intro e he
    rw [List.count_eq_zero]
    intro hmem
    obtain ⟨p, n, err, h⟩ := hw e hmem
    exact he p n err h
  have hcopies : ∀ t : List Event, (∀ ev ∈ t, ∃ p n err, ev = Event.Write p n err) →
      copies t = 0 := by
    intro t
    induction t with
    | nil => intro _; rfl
    | cons a t ih =>
      intro h
      obtain ⟨p, n, err, ha⟩ := h a (by simp)
      subst ha
      simpa [copies] using ih (fun ev hev => h ev (by simp [hev]))
  refine ⟨hcount _ (by simp), hcopies _ hw, hcount _ (by simp), hw, ?_, ?_⟩
  · intro hall
    have h1 := writeAll_acceptsAll write hall (BasicTemplate.chunks url) { buf := "", trace := [] }
    have h2 := writeAll_no_error write (BasicTemplate.chunks url) { buf := "", trace := [] }
      (by intro j _; rw [hall])
    rw [ho, ht, h1.1, h1.2, h2.2.2]
    simp [accepted, BasicTemplate_chunks_length]
  · intro k e hk hpre hrej
    have h1 := writeAll_first_error write (BasicTemplate.chunks url) { buf := "", trace := [] }
      k e (by rw [BasicTemplate_chunks_length]; exact hk)
      (by intro j hj; simpa [sinkCalls] using congrArg Prod.snd (hpre j hj))
      (by simpa [sinkCalls] using hrej)
    have h2 := writeAll_accepted_prefix write (BasicTemplate.chunks url)
      { buf := "", trace := [] } k e (by rw [BasicTemplate_chunks_length]; exact hk)
      (by simpa [sinkCalls] using hpre) (by simpa [sinkCalls] using hrej)
    rw [ho, ht, h1.1, h2, h1.2.2]
    simp [accepted]

/-- Witness of C7 as amended: a sink that takes one chunk and rejects the second. -/
theorem BasicTemplate_writes_unbuffered_witness :
    (1 < 10 ∧
      rejectingSink 1 (GoError.mk "closed") [] "<div>" = ("<div>".utf8ByteSize, none) ∧
      (rejectingSink 1 (GoError.mk "closed") ["<div>"] "<a").2 = some (GoError.mk "closed")) ∧
    ((BasicTemplate "x" (Writer.other (rejectingSink 1 (GoError.mk "closed")))).outcome
        = Outcome.returned (some (GoError.mk "closed")) ∧
      accepted (BasicTemplate "x" (Writer.other (rejectingSink 1 (GoError.mk "closed")))).trace
        = (BasicTemplate.chunks "x").take 1 ∧
      (BasicTemplate "x" (Writer.other (rejectingSink 1 (GoError.mk "closed")))).trace.length
        = 1 + 1) :=
  ⟨⟨by decide, by decide, by decide⟩,
    (BasicTemplate_writes_unbuffered "x" (rejectingSink 1 (GoError.mk "closed"))).2.2.2.2.2 1
      (GoError.mk "closed") (by decide) (by decide) (by decide)⟩

theorem join_BasicTemplate_chunks (url : String) :
    String.join (BasicTemplate.chunks url)
      = "<div><a href=\"" ++ templ.EscapeString (templ.URL url) ++ "\">text</a></div>" := by
  have h1 : ("<div><a href=\"" : String) = "<div>" ++ ("<a" ++ (" href=" ++ "\"")) := by decide
  have h2 : ("\">text</a></div>" : String)
      = "\"" ++ (">" ++ ("text" ++ ("</a>" ++ "</div>"))) := by decide
  rw [h1, h2]
  simp only [BasicTemplate.chunks, join_cons, join_nil, String.append_assoc,
    String.append_empty]

theorem BasicTemplate_received (url : String) (w : Writer) (h : w.AcceptsAll) :
    (BasicTemplate url w).received = w.contents ++ String.join (BasicTemplate.chunks url) ∧
    (BasicTemplate url w).outcome = Outcome.returned none := by
  cases w with
  | bytesBuffer contents =>
    rw [BasicTemplate_bytesBuffer]
    exact ⟨rfl, rfl⟩
  | other write =>
    obtain ⟨ho, ht, hb⟩ := BasicTemplate_other url write
    have h1 := writeAll_acceptsAll write h (BasicTemplate.chunks url) { buf := "", trace := [] }
    rw [ho, h1.1]
    refine ⟨?_, rfl⟩
    simp only [Result.received, hb, ht, h1.2, Writer.contents]
    simp [accepted]

/-- C2: for every `url` and every writer that accepts all writes, `BasicTemplate(url)`
leaves the writer with `<div><a href="` ++ V ++ `">text</a></div>` after what it held before,
where V is `templ.EscapeString(string(templ.URL(url)))`; V is the fixed placeholder
`about:invalid#TemplFailedSanitizationURL` whenever `url` has a scheme that is not one of
`http`, `https`, `mailto`, so that nothing of `url` is in the output then, and V is
`templ.EscapeString(url)` otherwise; for `javascript:alert(1)` the output is the one with the
placeholder. -/
theorem BasicTemplate_delivers_sanitized_href (url : String) (w : Writer) (h : w.AcceptsAll) :
    (BasicTemplate url w).received = w.contents
      ++ ("<div><a href=\"" ++ templ.EscapeString (templ.URL url) ++ "\">text</a></div>") ∧
    (BasicTemplate url w).outcome = Outcome.returned none ∧
    (∀ p, templ.scheme url = some p → p ≠ "http" → p ≠ "https" → p ≠ "mailto" →
      templ.EscapeString (templ.URL url) = "about:invalid#TemplFailedSanitizationURL" ∧
      (BasicTemplate url w).received = w.contents
        ++ "<div><a href=\"about:invalid#TemplFailedSanitizationURL\">text</a></div>") ∧
    ((templ.scheme url = none ∨ templ.scheme url = some "http" ∨
        templ.scheme url = some "https" ∨ templ.scheme url = some "mailto") →
      templ.EscapeString (templ.URL url) = templ.EscapeString url) ∧
    (BasicTemplate "javascript:alert(1)" w).received = w.contents
      ++ "<div><a href=\"about:invalid#TemplFailedSanitizationURL\">text</a></div>" := by
  have hr := BasicTemplate_received url w h
  rw [join_BasicTemplate_chunks] at hr
  have hj := BasicTemplate_received "javascript:alert(1)" w h
  have hjs : String.join (BasicTemplate.chunks "javascript:alert(1)")
      = "<div><a href=\"about:invalid#TemplFailedSanitizationURL\">text</a></div>" := by
    decide
  rw [hjs] at hj
  refine ⟨hr.1, hr.2, ?_, ?_, hj.1⟩
  · intro p hp h1 h2 h3
    have hu : templ.URL url = templ.FailedSanitizationURL := by
      simp [templ.URL, hp, templ.allowedScheme, h1, h2, h3]
    have he : templ.EscapeString templ.FailedSanitizationURL
        = "about:invalid#TemplFailedSanitizationURL" := by decide
    refine ⟨by rw [hu, he], ?_⟩
    rw [hr.1, hu, he]
    have : ("<div><a href=\"about:invalid#TemplFailedSanitizationURL\">text</a></div>" : String)
        = "<div><a href=\"" ++ "about:invalid#TemplFailedSanitizationURL"
          ++ "\">text</a></div>" := by decide
    rw [this]
  · intro hs
    have hu : templ.URL url = url := by
      rcases hs with hs | hs | hs | hs <;> simp [templ.URL, hs, templ.allowedScheme]
    rw [hu]

/-- Witness of C2: a sink that takes every chunk whole, and a `javascript:` URL. -/
theorem BasicTemplate_delivers_sanitized_href_witness :
    Writer.AcceptsAll (Writer.other acceptingSink) ∧
    (BasicTemplate "javascript:alert(1)" (Writer.other acceptingSink)).received = ""
      ++ "<div><a href=\"about:invalid#TemplFailedSanitizationURL\">text</a></div>" ∧
    (BasicTemplate "https://a.b/?q=<1>" (Writer.other acceptingSink)).received = ""
      ++ ("<div><a href=\"" ++ templ.EscapeString (templ.URL "https://a.b/?q=<1>")
        ++ "\">text</a></div>") :=
  ⟨fun _ _ => rfl,
    (BasicTemplate_delivers_sanitized_href "javascript:alert(1)" (Writer.other acceptingSink)
      (fun _ _ => rfl)).2.2.2.2,
    (BasicTemplate_delivers_sanitized_href "https://a.b/?q=<1>" (Writer.other acceptingSink)
      (fun _ _ => rfl)).1⟩


/-! ## The element parser on a pair of tags -/

theorem utf8Size_eq_one_of_lt (c : Char) (h : c.toNat < 128) : c.utf8Size = 1 := by
  have h' : c.val.toNat < 128 := h
  have : c.val ≤ 127 := by
    rw [UInt32.le_def]
    show c.val.toNat ≤ 127
    omega
  simp [Char.utf8Size, this]

theorem isNameChar_toNat_lt (c : Char) (h : isNameChar c = true) : c.toNat < 128 ∧ c ≠ '\n' := by
  simp only [isNameChar, isNameFirst, Bool.or_eq_true, Bool.and_eq_true, decide_eq_true_eq] at h
  rcases h with (h | h) | h
  · constructor
    · rcases h with h | h <;> omega
    · rintro rfl; revert h; decide
  · constructor
    · omega
    · rintro rfl; revert h; decide
  · subst h; decide

theorem advance_nameChar (p : Position) (c : Char) (h : isNameChar c = true) :
    p.advance c = { index := p.index + 1, line := p.line, col := p.col + 1 } := by
  obtain ⟨h1, h2⟩ := isNameChar_toNat_lt c h
  simp [Position.advance, h2, utf8Size_eq_one_of_lt c h1]

theorem advanceAll_nameChars (p : Position) (cs : List Char)
    (h : cs.all isNameChar = true) :
    p.advanceAll cs
      = { index := p.index + cs.length, line := p.line, col := p.col + cs.length } := by
  induction cs generalizing p with
  | nil => simp [Position.advanceAll]
  | cons c cs ih =>
    simp only [List.all_cons, Bool.and_eq_true] at h
    have := ih (p.advance c) h.2
    simp only [Position.advanceAll, List.foldl_cons] at this ⊢
    rw [this, advance_nameChar p c h.1]
    simp
    omega

theorem takeWhile_append_stop (p : Char → Bool) (cs : List Char) (d : Char) (rest : List Char)
    (h : cs.all p = true) (hd : p d = false) :
    (cs ++ d :: rest).takeWhile p = cs ∧ (cs ++ d :: rest).dropWhile p = d :: rest := by
  induction cs with
  | nil => simp [List.takeWhile, List.dropWhile, hd]
  | cons c cs ih =>
    simp only [List.all_cons, Bool.and_eq_true] at h
    simp [List.takeWhile, List.dropWhile, h.1, ih h.2]

theorem validName_data (a : String) (h : validName a = true) :
    ∃ c cs, a.data = c :: cs ∧ isNameFirst c = true ∧ cs.all isNameChar = true := by
  unfold validName at h
  split at h
  · simp at h
  · rename_i c cs heq
    simp only [Bool.and_eq_true] at h
    exact ⟨c, cs, heq, h.1, h.2⟩

theorem validName_all (a : String) (h : validName a = true) : a.data.all isNameChar = true := by
  obtain ⟨c, cs, heq, h1, h2⟩ := validName_data a h
  rw [heq]
  simp only [List.all_cons, Bool.and_eq_true]
  exact ⟨by simp [isNameChar, h1], h2⟩

theorem elementName_append (a : String) (d : Char) (rest : List Char)
    (h : validName a = true) (hd : isNameChar d = false) :
    elementName (a.data ++ d :: rest) = some (a, d :: rest) := by
  obtain ⟨c, cs, heq, h1, h2⟩ := validName_data a h
  obtain ⟨t1, t2⟩ := takeWhile_append_stop isNameChar cs d rest h2 hd
  have ha : a = String.mk (c :: cs) := by
    rw [← heq]
  rw [heq]
  simp only [List.cons_append, elementName, h1, if_true, t1, t2]
  rw [ha]

theorem parseAttributes_gt (fuel : Nat) (rest : List Char) (pos : Position) :
    parseAttributes (fuel + 1) ('>' :: rest) pos = Parsed.ok [] ('>' :: rest) pos := by
  have hw : skipWhitespace ('>' :: rest) pos = ('>' :: rest, pos) := by
    have : Char.isWhitespace '>' = false := by decide
    simp [skipWhitespace, List.dropWhile, List.takeWhile, this, Position.advanceAll]
  have hn : elementName ('>' :: rest) = none := by
    have : isNameFirst '>' = false := by decide
    simp [elementName, this]
  simp only [parseAttributes, hw, parseAttribute, hn]

theorem parseChildren_endTag (elem : List Char → Position → Parsed Node) (fuel : Nat)
    (rest : List Char) (pos : Position) :
    parseChildren elem (fuel + 1) ('<' :: '/' :: rest) pos
      = Parsed.ok [] ('<' :: '/' :: rest) pos := by
  simp [parseChildren]

theorem skipWhitespace_gt (rest : List Char) (pos : Position) :
    skipWhitespace ('>' :: rest) pos = ('>' :: rest, pos) := by
  have : Char.isWhitespace '>' = false := by decide
  simp [skipWhitespace, List.dropWhile, List.takeWhile, this, Position.advanceAll]

theorem after_selfClose_gt (r : List Char) : after ['/', '>'] ('>' :: r) = none := by
  have : ('/' : Char) ≠ '>' := by decide
  simp [after, this]

theorem after_gt (r : List Char) : after ['>'] ('>' :: r) = some r := by
  simp [after]

theorem after_endTag (r : List Char) : after ['<', '/'] ('<' :: '/' :: r) = some r := by
  simp [after]

theorem advance_ascii (p : Position) (c : Char) (h1 : c.toNat < 128) (h2 : c ≠ '\n') :
    p.advance c = { index := p.index + 1, line := p.line, col := p.col + 1 } := by
  unfold Position.advance
  rw [if_neg h2, utf8Size_eq_one_of_lt c h1]

theorem advance_endTag (b : String) (hb : validName b = true) (n : Nat) :
    Position.advance (Position.advanceAll
      (Position.advanceAll { index := n, line := 0, col := n } ['<', '/']) b.data) '>'
      = { index := n + b.length + 3, line := 0, col := n + b.length + 3 } := by
  have h0 : Position.advanceAll { index := n, line := 0, col := n } ['<', '/']
      = { index := n + 2, line := 0, col := n + 2 } := by
    show Position.advance (Position.advance _ '<') '/' = _
    rw [advance_ascii _ '<' (by decide) (by decide), advance_ascii _ '/' (by decide) (by decide)]
  rw [h0, advanceAll_nameChars _ _ (validName_all b hb),
    advance_ascii _ '>' (by decide) (by decide)]
  show Position.mk _ _ _ = Position.mk _ _ _
  congr 1 <;> simp only [String.length] <;> omega

theorem anyStyleExpression_nil : anyStyleExpression [] = false := by
  simp [anyStyleExpression]

/-- The element parser on `<a></b>`, for valid names `a` and `b`. -/
theorem parseElement_pair (a b : String) (ha : validName a = true) (hb : validName b = true)
    (fuel : Nat) :
    parseElement (fuel + 1) ('<' :: (a.data ++ '>' :: '<' :: '/' :: (b.data ++ ['>'])))
        { index := 0, line := 0, col := 0 }
      = if b = a then
          Parsed.ok (Node.Element a [] []) []
            { index := a.length + 2 + b.length + 3, line := 0,
              col := a.length + 2 + b.length + 3 }
        else
          Parsed.error
            { msg := mismatchedEndTag a b
              pos := { index := a.length + 2, line := 0, col := a.length + 2 } } := by
  have hgt : isNameChar '>' = false := by decide
  have hlt : Position.advance { index := 0, line := 0, col := 0 } '<'
      = { index := 1, line := 0, col := 1 } := by decide
  have hp2 : Position.advance { index := 1 + a.data.length, line := 0, col := 1 + a.data.length }
      '>' = { index := a.length + 2, line := 0, col := a.length + 2 } := by
    rw [advance_ascii _ '>' (by decide) (by decide)]
    show Position.mk _ _ _ = Position.mk _ _ _
    congr 1 <;> simp only [String.length] <;> omega
  rw [parseElement]
  simp only [if_true, elementName_append a '>' _ ha hgt, List.length_cons,
    parseAttributes_gt, skipWhitespace_gt, hlt, advanceAll_nameChars _ _ (validName_all a ha),
    after_selfClose_gt, after_gt, anyStyleExpression_nil, List.any_nil, Bool.false_eq_true,
    if_false,
    parseChildren_endTag, hp2, and_false, after_endTag, elementName_append b '>' _ hb hgt,
    advance_endTag b hb]

theorem pair_data (a b : String) :
    ("<" ++ a ++ "></" ++ b ++ ">").data
      = '<' :: (a.data ++ '>' :: '<' :: '/' :: (b.data ++ ['>'])) := by
  simp [String.data_append]

/-- C10: for valid element names `a` and `b`: when they differ, parsing `<a></b>` with the
element parser fails with the message `<a>: mismatched end tag, expected '</a>', got '</b>'`,
which names the open name as expected and the close name as found, at the start of the end
tag (index, line 0 and column `len(a) + 2`), which for the input `<a></b>` itself is index 3,
line 0, column 3; when the names are equal the parser raises no error and gives the
element. -/
theorem element_Parse_mismatched_end_tag (a b : String) (ha : validName a = true)
    (hb : validName b = true) :
    (a ≠ b →
      element.Parse ("<" ++ a ++ "></" ++ b ++ ">")
        = Parsed.error
            { msg := "<" ++ a ++ ">: mismatched end tag, expected '</" ++ a ++ ">', got '</"
                ++ b ++ ">'"
              pos := { index := a.length + 2, line := 0, col := a.length + 2 } }) ∧
    element.Parse ("<" ++ a ++ "></" ++ a ++ ">")
      = Parsed.ok (Node.Element a [] []) []
          { index := a.length + 2 + a.length + 3, line := 0,
            col := a.length + 2 + a.length + 3 } ∧
    element.Parse "<a></b>"
      = Parsed.error
          { msg := "<a>: mismatched end tag, expected '</a>', got '</b>'"
            pos := { index := 3, line := 0, col := 3 } } := by
  refine ⟨?_, ?_, ?_⟩
  · intro hab
    have hba : ¬ b = a := fun h => hab h.symm
    unfold element.Parse
    rw [pair_data, parseElement_pair a b ha hb, if_neg hba]
    rfl
  · unfold element.Parse
    rw [pair_data, parseElement_pair a a ha ha, if_pos rfl]
  · have h := parseElement_pair "a" "b" (by decide) (by decide) ("<a></b>".length)
    rw [if_neg (by decide)] at h
    exact h

/-- Witness of C10: the names `div` and `span`. -/
theorem element_Parse_mismatched_end_tag_witness :
    (validName "div" = true ∧ validName "span" = true ∧ "div" ≠ "span") ∧
    element.Parse ("<" ++ "div" ++ "></" ++ "span" ++ ">")
      = Parsed.error
          { msg := "<" ++ "div" ++ ">: mismatched end tag, expected '</" ++ "div" ++ ">', got '</"
              ++ "span" ++ ">'"
            pos := { index := "div".length + 2, line := 0, col := "div".length + 2 } } :=
  ⟨⟨by decide, by decide, by decide⟩,
    (element_Parse_mismatched_end_tag "div" "span" (by decide) (by decide)).1 (by decide)⟩


/-! ## Whitespace and text in the `test-text-whitespace` renderers -/

/-- Counterexample to C13: `InlineElementsAreNotPadded` writes the Text literal
`Inline text `, which ends with a space, and the write after it is the `<b>` of an element,
not a Whitespace write; `WhiteSpaceAroundValues` does the same with `templ allows `. -/
theorem Text_literal_ends_with_whitespace :
    bufferWrites (InlineElementsAreNotPadded (Writer.bytesBuffer "")).trace
      = InlineElementsAreNotPadded.writes.map Prod.snd ∧
    (WriteKind.Text, "Inline text ") ∈ InlineElementsAreNotPadded.writes ∧
    endsWithWhitespace "Inline text " = true ∧
    afterTextEndingInWhitespace InlineElementsAreNotPadded.writes = [WriteKind.Element] ∧
    (WriteKind.Text, "templ allows ") ∈ WhiteSpaceAroundValues.writes ∧
    endsWithWhitespace "templ allows " = true := by
  decide

/-- C13 as amended: in the four generated renderers of `test-text-whitespace`, every
Whitespace write is exactly one space, no Text literal begins with a whitespace character
and none holds two whitespace characters in a row; a Text literal ends with a whitespace
character only where the write after it belongs to an element or to a string expression:
`Inline text ` before `<b>` and `templ allows ` before the interpolated value keep their one
space at the end of the Text node. -/
theorem whitespace_writes_and_Text_literals (w : Writer) :
    (bufferWrites (WhitespaceIsAddedWithinTemplStatements w).trace
        = WhitespaceIsAddedWithinTemplStatements.writes.map Prod.snd ∧
      bufferWrites (InlineElementsAreNotPadded w).trace
        = InlineElementsAreNotPadded.writes.map Prod.snd ∧
      bufferWrites (WhiteSpaceInHTMLIsNormalised w).trace
        = WhiteSpaceInHTMLIsNormalised.writes.map Prod.snd ∧
      bufferWrites (WhiteSpaceAroundValues w).trace
        = WhiteSpaceAroundValues.writes.map Prod.snd) ∧
    (writesOf WriteKind.Whitespace WhitespaceIsAddedWithinTemplStatements.writes = [" "] ∧
      writesOf WriteKind.Whitespace InlineElementsAreNotPadded.writes = [" "] ∧
      writesOf WriteKind.Whitespace WhiteSpaceInHTMLIsNormalised.writes = [" ", " "] ∧
      writesOf WriteKind.Whitespace WhiteSpaceAroundValues.writes = [" "]) ∧
    ((writesOf WriteKind.Text WhitespaceIsAddedWithinTemplStatements.writes).all
        (fun s => !beginsWithWhitespace s && !hasWhitespaceRun s.data) = true ∧
      (writesOf WriteKind.Text InlineElementsAreNotPadded.writes).all
        (fun s => !beginsWithWhitespace s && !hasWhitespaceRun s.data) = true ∧
      (writesOf WriteKind.Text WhiteSpaceInHTMLIsNormalised.writes).all
        (fun s => !beginsWithWhitespace s && !hasWhitespaceRun s.data) = true ∧
      (writesOf WriteKind.Text WhiteSpaceAroundValues.writes).all
        (fun s => !beginsWithWhitespace s && !hasWhitespaceRun s.data) = true) ∧
    ((writesOf WriteKind.Text WhitespaceIsAddedWithinTemplStatements.writes).filter
        endsWithWhitespace = [] ∧
      (writesOf WriteKind.Text InlineElementsAreNotPadded.writes).filter endsWithWhitespace
        = ["Inline text "] ∧
      (writesOf WriteKind.Text WhiteSpaceInHTMLIsNormalised.writes).filter endsWithWhitespace
        = [] ∧
      (writesOf WriteKind.Text WhiteSpaceAroundValues.writes).filter endsWithWhitespace
        = ["templ allows "]) ∧
    (afterTextEndingInWhitespace WhitespaceIsAddedWithinTemplStatements.writes = [] ∧
      afterTextEndingInWhitespace InlineElementsAreNotPadded.writes = [WriteKind.Element] ∧
      afterTextEndingInWhitespace WhiteSpaceInHTMLIsNormalised.writes = [] ∧
      afterTextEndingInWhitespace WhiteSpaceAroundValues.writes
        = [WriteKind.StringExpression]) := by
  have h1 : bufferWrites (WhitespaceIsAddedWithinTemplStatements w).trace
      = Pooled.WhitespaceIsAddedWithinTemplStatements.chunks := by
    rw [← bufferWrites_pooled Pooled.WhitespaceIsAddedWithinTemplStatements.chunks w,
      ← Pooled_run_eq]
    rfl
  have h2 : bufferWrites (InlineElementsAreNotPadded w).trace
      = Pooled.InlineElementsAreNotPadded.chunks := by
    rw [← bufferWrites_pooled Pooled.InlineElementsAreNotPadded.chunks w, ← Pooled_run_eq]
    rfl
  have h3 : bufferWrites (WhiteSpaceInHTMLIsNormalised w).trace
      = Pooled.WhiteSpaceInHTMLIsNormalised.chunks := by
    rw [← bufferWrites_pooled Pooled.WhiteSpaceInHTMLIsNormalised.chunks w, ← Pooled_run_eq]
    rfl
  have h4 : bufferWrites (WhiteSpaceAroundValues w).trace
      = Pooled.WhiteSpaceAroundValues.chunks := by
    rw [← bufferWrites_pooled Pooled.WhiteSpaceAroundValues.chunks w, ← Pooled_run_eq]
    rfl
  refine ⟨⟨?_, ?_, ?_, ?_⟩, by decide, by decide, by decide, by decide⟩
  · rw [h1]; rfl
  · rw [h2]; rfl
  · rw [h3]; rfl
  · rw [h4]; rfl

/-! ## The only error of a pooled render is the error of its copy -/

theorem Pooled_body_eq (c : Pooled) (w : Writer) (st : St) :
    c.body w st = copyOut w none (written c.chunks st) := by
  cases c with
  | render s => exact render_body_eq s w st
  | list items => exact list_body_eq items w st
  | WhitespaceIsAddedWithinTemplStatements =>
    exact WhitespaceIsAddedWithinTemplStatements_body_eq w st
  | InlineElementsAreNotPadded => exact InlineElementsAreNotPadded_body_eq w st
  | WhiteSpaceInHTMLIsNormalised => exact WhiteSpaceInHTMLIsNormalised_body_eq w st
  | WhiteSpaceAroundValues => exact WhiteSpaceAroundValues_body_eq w st

theorem copyOutcome_eq_error (write : List String → String → Nat × Option GoError)
    (out : String) (e : GoError) :
    copyOutcome write out = Outcome.returned (some e) ↔
      (out ≠ "" ∧ (write [] out).1 ≤ out.utf8ByteSize ∧
        ((write [] out).2 = some e ∨
          ((write [] out).2 = none ∧ (write [] out).1 ≠ out.utf8ByteSize
            ∧ e = io.ErrShortWrite))) := by
  unfold copyOutcome
  by_cases h0 : out = ""
  · simp [h0]
  · by_cases h1 : (write [] out).1 > out.utf8ByteSize
    · simp only [h0, h1, if_true, if_false]
      constructor
      · intro h; cases h
      · rintro ⟨_, h, _⟩; omega
    · by_cases h2 : (write [] out).2 = none
      · by_cases h3 : (write [] out).1 = out.utf8ByteSize
        · simp [h0, h1, h2, h3]
        · have hle : (write [] out).1 ≤ out.utf8ByteSize := by omega
          simp only [h0, h1, h2, h3, if_false, if_true, ne_eq, not_true_eq_false,
            not_false_eq_true, true_and, hle, false_or, Outcome.returned.injEq,
            Option.some.injEq]
          constructor
          · intro h; exact Or.inr h.symm
          · rintro (h | h)
            · cases h
            · exact h.symm
      · have hle : (write [] out).1 ≤ out.utf8ByteSize := by omega
        simp only [h0, h1, h2, if_false, if_true, ne_eq, not_false_eq_true, true_and, hle,
          false_and, or_false, Outcome.returned.injEq]

/-- C14: for each pooled-buffer renderer and every input: a write into the in-memory
buffer returns a nil error, so no `return err` of the body is taken: from any state the
body writes all its chunks and ends in the final copy; hence, on a sink that is not a
`*bytes.Buffer`, the render ends exactly as its one `io.Copy` of the whole output ends, and
it returns the error `e` if and only if that copy fails with `e` (the error of the sink's
`Write`, or `io.ErrShortWrite` for a short count without error); on a `*bytes.Buffer` the
render always returns nil. -/
theorem pooled_renderer_error_is_copy_error (c : Pooled) :
    (∀ (s : String) (st : St), (Buffer.WriteString s st).1 = none) ∧
    (∀ (w : Writer) (st : St), c.body w st = copyOut w none (written c.chunks st)) ∧
    (∀ w : Writer, c.run w = withTemplBuffer w (c.body w)) ∧
    (∀ write : List String → String → Nat × Option GoError,
      (c.run (Writer.other write)).outcome
        = (io.Copy write
            { buf := String.join c.chunks
              trace := Event.GetBuffer :: c.chunks.map Event.WriteString }).1) ∧
    (∀ (write : List String → String → Nat × Option GoError) (e : GoError),
      (c.run (Writer.other write)).outcome = Outcome.returned (some e) ↔
        (String.join c.chunks ≠ "" ∧
          (write [] (String.join c.chunks)).1 ≤ (String.join c.chunks).utf8ByteSize ∧
          ((write [] (String.join c.chunks)).2 = some e ∨
            ((write [] (String.join c.chunks)).2 = none ∧
              (write [] (String.join c.chunks)).1 ≠ (String.join c.chunks).utf8ByteSize ∧
              e = io.ErrShortWrite)))) ∧
    (∀ contents : String,
      (c.run (Writer.bytesBuffer contents)).outcome = Outcome.returned none) := by
  have hout : ∀ write : List String → String → Nat × Option GoError,
      (c.run (Writer.other write)).outcome = copyOutcome write (String.join c.chunks) := by
    intro write
    rw [Pooled_run_eq]
    rfl
  refine ⟨fun _ _ => rfl, Pooled_body_eq c, ?_, ?_, ?_, ?_⟩
  · intro w
    cases c <;> rfl
  · intro write
    rw [hout, io_Copy_eq write _ (by simp [sinkCalls, sinkCalls_map_WriteString])]
  · intro write e
    rw [hout]
    exact copyOutcome_eq_error write _ e
  · intro contents
    rw [Pooled_run_eq]
    rfl


/-! ## The element parser on source text -/

theorem dropWhile_append_stop (p : Char → Bool) (l : List Char) (d : Char) (r : List Char)
    (hd : p d = false) : (l ++ d :: r).dropWhile p = l.dropWhile p ++ d :: r := by
  induction l with
  | nil => simp [List.dropWhile, hd]
  | cons c l ih =>
    by_cases hc : p c = true
    · simp [List.dropWhile, hc, ih]
    · simp [List.dropWhile, hc]

theorem all_dropWhile (p q : Char → Bool) (l : List Char) (h : l.all p = true) :
    (l.dropWhile q).all p = true := by
  induction l with
  | nil => simp
  | cons c l ih =>
    simp only [List.all_cons, Bool.and_eq_true] at h
    by_cases hc : q c = true
    · simp only [List.dropWhile, hc]
      exact ih h.2
    · simp only [List.dropWhile, hc, List.all_cons, Bool.and_eq_true]
      exact h

theorem untilCloseBrace_braceFree (l r : List Char)
    (h : l.all (fun c => c ≠ openBrace && c ≠ closeBrace) = true) :
    untilCloseBrace 0 (l ++ closeBrace :: r) = some (l, r) := by
  induction l with
  | nil => simp [untilCloseBrace]
  | cons c l ih =>
    simp only [List.all_cons, Bool.and_eq_true, decide_eq_true_eq] at h
    simp [untilCloseBrace, h.1.1, h.1.2, ih h.2]

theorem closeBrace_not_whitespace : Char.isWhitespace closeBrace = false := by decide

theorem braceExpression_braceFree (l r : List Char) (pos : Position)
    (h : l.all (fun c => c ≠ openBrace && c ≠ closeBrace) = true) :
    ∃ ex p, braceExpression (l ++ closeBrace :: r) pos = Parsed.ok ex r p := by
  have h1 := dropWhile_append_stop Char.isWhitespace l closeBrace r closeBrace_not_whitespace
  have h2 := untilCloseBrace_braceFree (l.dropWhile Char.isWhitespace) r
    (all_dropWhile _ _ l h)
  simp only [braceExpression, skipWhitespace, h1, h2]
  exact ⟨_, _, rfl⟩

theorem elementName_style (d : Char) (r : List Char) (hd : isNameChar d = false) :
    elementName ("style".data ++ d :: r) = some ("style", d :: r) :=
  elementName_append "style" d r (by decide) hd

theorem parseAttribute_style_expression
    (attrs : List Char → Position → Parsed (List Attribute)) (l r : List Char) (pos : Position)
    (h : l.all (fun c => c ≠ openBrace && c ≠ closeBrace) = true) :
    ∃ ex p, parseAttribute attrs ("style".data ++ '=' :: openBrace :: (l ++ closeBrace :: r)) pos
      = Parsed.ok (Attribute.ExpressionAttribute "style" ex) r p := by
  have h1 : after ['?', '=', openBrace] ('=' :: openBrace :: (l ++ closeBrace :: r)) = none := by
    have : ('?' : Char) ≠ '=' := by decide
    simp [after, this]
  have h2 : after ['=', openBrace] ('=' :: openBrace :: (l ++ closeBrace :: r))
      = some (l ++ closeBrace :: r) := by
    simp [after]
  obtain ⟨ex, p, hb⟩ := braceExpression_braceFree l r
    ((pos.advanceAll "style".data).advanceAll ['=', openBrace]) h
  refine ⟨ex, p, ?_⟩
  simp only [parseAttribute, elementName_style '=' _ (by decide), h1, h2, hb]

theorem parseAttribute_style_boolExpression
    (attrs : List Char → Position → Parsed (List Attribute)) (l r : List Char) (pos : Position)
    (h : l.all (fun c => c ≠ openBrace && c ≠ closeBrace) = true) :
    ∃ ex p,
      parseAttribute attrs ("style".data ++ '?' :: '=' :: openBrace :: (l ++ closeBrace :: r)) pos
        = Parsed.ok (Attribute.BoolExpressionAttribute "style" ex) r p := by
  have h1 : after ['?', '=', openBrace] ('?' :: '=' :: openBrace :: (l ++ closeBrace :: r))
      = some (l ++ closeBrace :: r) := by
    simp [after]
  obtain ⟨ex, p, hb⟩ := braceExpression_braceFree l r
    ((pos.advanceAll "style".data).advanceAll ['?', '=', openBrace]) h
  refine ⟨ex, p, ?_⟩
  simp only [parseAttribute, elementName_style '?' _ (by decide), h1, hb]

theorem decodeEntities_plain (fuel : Nat) (v : List Char)
    (h : v.all (fun c => c ≠ '&') = true) : decodeEntities fuel v = v := by
  induction fuel generalizing v with
  | zero => simp [decodeEntities]
  | succ n ih =>
    cases v with
    | nil => simp [decodeEntities]
    | cons c v =>
      simp only [List.all_cons, Bool.and_eq_true, decide_eq_true_eq] at h
      simp [decodeEntities, h.1, ih v h.2]

theorem parseAttribute_style_constant
    (attrs : List Char → Position → Parsed (List Attribute)) (v : String) (r : List Char)
    (pos : Position)
    (h : v.data.all (fun c => c ≠ quote && c ≠ '&') = true) :
    ∃ p, parseAttribute attrs ("style".data ++ '=' :: quote :: (v.data ++ quote :: r)) pos
      = Parsed.ok (Attribute.ConstantAttribute "style" v) r p := by
  have hq : v.data.all (fun c => decide (c ≠ quote)) = true := by
    rw [List.all_eq_true] at h ⊢
    intro c hc
    have := h c hc
    simp only [Bool.and_eq_true, decide_eq_true_eq] at this ⊢
    exact this.1
  have ha : v.data.all (fun c => decide (c ≠ '&')) = true := by
    rw [List.all_eq_true] at h ⊢
    intro c hc
    have := h c hc
    simp only [Bool.and_eq_true, decide_eq_true_eq] at this ⊢
    exact this.2
  have h1 : after ['?', '=', openBrace] ('=' :: quote :: (v.data ++ quote :: r)) = none := by
    have : ('?' : Char) ≠ '=' := by decide
    simp [after, this]
  have h2 : after ['=', openBrace] ('=' :: quote :: (v.data ++ quote :: r)) = none := by
    have : openBrace ≠ quote := by decide
    simp [after, this]
  have h3 : after ['=', quote] ('=' :: quote :: (v.data ++ quote :: r))
      = some (v.data ++ quote :: r) := by
    simp [after]
  have hnq : (fun c => decide (c ≠ quote)) quote = false := by simp
  obtain ⟨t1, t2⟩ := takeWhile_append_stop (fun c => decide (c ≠ quote)) v.data quote r hq hnq
  have hif : ¬ (("style" : String) = "if" ∧ (List.head? ('=' :: quote :: (v.data ++ quote :: r))).any
      Char.isWhitespace = true) := by
    intro hh
    exact absurd hh.1 (by decide)
  simp only [parseAttribute, elementName_style '=' _ (by decide), h1, h2, h3, hif, if_false,
    t1, t2, decodeEntities_plain _ _ ha]
  exact ⟨_, rfl⟩

theorem skipWhitespace_stop (d : Char) (r : List Char) (pos : Position)
    (hd : d.isWhitespace = false) : skipWhitespace (d :: r) pos = (d :: r, pos) := by
  simp [skipWhitespace, List.dropWhile, List.takeWhile, hd, Position.advanceAll]

theorem skipWhitespace_space (d : Char) (r : List Char) (pos : Position)
    (hd : d.isWhitespace = false) :
    skipWhitespace (' ' :: d :: r) pos = (d :: r, pos.advance ' ') := by
  have hs : Char.isWhitespace ' ' = true := by decide
  simp [skipWhitespace, List.dropWhile, List.takeWhile, hd, hs, Position.advanceAll]

theorem parseAttributes_stop (f : Nat) (d : Char) (r : List Char) (pos : Position)
    (hw : d.isWhitespace = false) (hn : isNameFirst d = false) :
    parseAttributes (f + 1) (d :: r) pos = Parsed.ok [] (d :: r) pos := by
  have he : elementName (d :: r) = none := by simp [elementName, hn]
  simp only [parseAttributes, skipWhitespace_stop d r pos hw, parseAttribute, he]

theorem parseAttributes_space_stop (f : Nat) (d : Char) (r : List Char) (pos : Position)
    (hw : d.isWhitespace = false) (hn : isNameFirst d = false) :
    parseAttributes (f + 1) (' ' :: d :: r) pos = Parsed.ok [] (' ' :: d :: r) pos := by
  have he : elementName (d :: r) = none := by simp [elementName, hn]
  simp only [parseAttributes, skipWhitespace_space d r pos hw, parseAttribute, he]

/-- One attribute after a space, then a character that ends the attributes. -/
theorem parseAttributes_single (f : Nat) (c : Char) (txt : List Char) (d : Char)
    (r : List Char) (pos : Position) (P : Attribute → Prop)
    (hc : c.isWhitespace = false) (hw : d.isWhitespace = false) (hn : isNameFirst d = false)
    (hattr : ∀ q, ∃ a p,
      parseAttribute (parseAttributes (f + 1)) (c :: txt) q = Parsed.ok a (d :: r) p ∧ P a) :
    ∃ a p, parseAttributes (f + 2) (' ' :: c :: txt) pos = Parsed.ok [a] (d :: r) p ∧ P a := by
  obtain ⟨a, p, ha, hP⟩ := hattr (pos.advance ' ')
  refine ⟨a, p, ?_, hP⟩
  rw [parseAttributes]
  simp only [skipWhitespace_space c txt pos hc, ha, parseAttributes_stop f d r p hw hn]

theorem anyStyleExpression_single (a : Attribute) :
    anyStyleExpression [a] = a.isStyleExpression := by
  simp [anyStyleExpression]

theorem space_not_nameChar : isNameChar ' ' = false := by decide

/-- The element parser on `<n`, a space, one attribute that is an expression-valued
`style`, and then `/>` or `>` followed by anything: an error at the opening tag. -/
theorem parseElement_style_text (f : Nat) (n : String) (c : Char) (txt : List Char) (d : Char)
    (r : List Char) (start : Position) (hn : validName n = true)
    (hc : c.isWhitespace = false)
    (hd : (d = '/' ∧ ∃ r2, r = '>' :: r2) ∨ d = '>')
    (hattr : ∀ q, ∃ a p,
      parseAttribute (parseAttributes (txt.length + 1 + 1)) (c :: txt) q = Parsed.ok a (d :: r) p
        ∧ a.isStyleExpression = true) :
    parseElement (f + 1) ('<' :: (n.data ++ ' ' :: c :: txt)) start
      = Parsed.error { msg := invalidStyleAttribute n, pos := start } := by
  have hw : d.isWhitespace = false := by
    rcases hd with ⟨h, _⟩ | h <;> subst h <;> decide
  have hnf : isNameFirst d = false := by
    rcases hd with ⟨h, _⟩ | h <;> subst h <;> decide
  have hlen : (' ' :: c :: txt).length + 1 = (txt.length + 1) + 2 := rfl
  obtain ⟨a, p, ha, hs⟩ := parseAttributes_single (txt.length + 1) c txt d r
    ((start.advance '<').advanceAll n.data) (fun a => a.isStyleExpression = true) hc hw hnf hattr
  rw [parseElement]
  simp only [if_true, elementName_append n ' ' _ hn space_not_nameChar, hlen, ha,
    skipWhitespace_stop d r p hw]
  rcases hd with ⟨h, r2, hr⟩ | h
  · subst h; subst hr
    have h1 : after ['/', '>'] ('/' :: '>' :: r2) = some r2 := by simp [after]
    simp only [h1, anyStyleExpression_single, hs, if_true]
  · subst h
    simp only [after_selfClose_gt, after_gt, anyStyleExpression_single, hs, if_true]

theorem takeWhile_dropWhile_openBrace (l r : List Char)
    (h : l.all (fun c => c ≠ openBrace && c ≠ closeBrace) = true) :
    (l ++ openBrace :: r).takeWhile (fun c => decide (c ≠ openBrace)) = l ∧
    (l ++ openBrace :: r).dropWhile (fun c => decide (c ≠ openBrace)) = openBrace :: r := by
  have h1 : l.all (fun c => decide (c ≠ openBrace)) = true := by
    rw [List.all_eq_true] at h ⊢
    intro c hc
    have := h c hc
    simp only [Bool.and_eq_true, decide_eq_true_eq] at this ⊢
    exact this.1
  exact takeWhile_append_stop (fun c => decide (c ≠ openBrace)) l openBrace r h1 (by simp)

theorem skipWhitespace_fst (cs : List Char) (pos : Position) :
    (skipWhitespace cs pos).1 = cs.dropWhile Char.isWhitespace := rfl

theorem dropWhile_whitespace_stop (d : Char) (r : List Char) (hd : d.isWhitespace = false) :
    (d :: r).dropWhile Char.isWhitespace = d :: r := by
  simp [List.dropWhile, hd]

/-- A conditional attribute `if cnd` whose attributes in braces hold an expression-valued
`style`, with no `else`, before `/` or `>`. -/
theorem parseAttribute_conditional (attrs : List Char → Position → Parsed (List Attribute))
    (cnd c2 r : List Char) (d : Char)
    (hcnd : cnd.all (fun c => c ≠ openBrace && c ≠ closeBrace) = true)
    (hd : d = '/' ∨ d = '>')
    (hnested : ∀ pos, ∃ nested p,
      attrs c2 pos = Parsed.ok nested (closeBrace :: d :: r) p
        ∧ anyStyleExpression nested = true)
    (q : Position) :
    ∃ a p, parseAttribute attrs ('i' :: 'f' :: ' ' :: (cnd ++ openBrace :: c2)) q
      = Parsed.ok a (d :: r) p ∧ a.isStyleExpression = true := by
  have hdw : d.isWhitespace = false := by rcases hd with h | h <;> subst h <;> decide
  have hname : elementName ('i' :: 'f' :: ' ' :: (cnd ++ openBrace :: c2))
      = some ("if", ' ' :: (cnd ++ openBrace :: c2)) :=
    elementName_append "if" ' ' _ (by decide) space_not_nameChar
  have h1 : after ['?', '=', openBrace] (' ' :: (cnd ++ openBrace :: c2)) = none := by
    have : ('?' : Char) ≠ ' ' := by decide
    simp [after, this]
  have h2 : after ['=', openBrace] (' ' :: (cnd ++ openBrace :: c2)) = none := by
    have : ('=' : Char) ≠ ' ' := by decide
    simp [after, this]
  have hsp : Char.isWhitespace ' ' = true := by decide
  have hob : Char.isWhitespace openBrace = false := by decide
  have hcb : Char.isWhitespace closeBrace = false := by decide
  have hdrop : (' ' :: (cnd ++ openBrace :: c2)).dropWhile Char.isWhitespace
      = cnd.dropWhile Char.isWhitespace ++ openBrace :: c2 := by
    rw [List.dropWhile_cons_of_pos hsp]
    exact dropWhile_append_stop Char.isWhitespace cnd openBrace c2 hob
  obtain ⟨t1, t2⟩ := takeWhile_dropWhile_openBrace (cnd.dropWhile Char.isWhitespace) c2
    (all_dropWhile _ _ cnd hcnd)
  choose A Pf hA hS using hnested
  have helse : after ['e', 'l', 's', 'e'] (d :: r) = none := by
    rcases hd with h | h <;> subst h
    · have : ('e' : Char) ≠ '/' := by decide
      simp [after, this]
    · have : ('e' : Char) ≠ '>' := by decide
      simp [after, this]
  have hcloseb : after [closeBrace] (closeBrace :: d :: r) = some (d :: r) := by simp [after]
  have hifname : (("if" : String) = "if" ∧
      (List.head? (' ' :: (cnd ++ openBrace :: c2))).any Char.isWhitespace = true) := by
    simp [hsp]
  simp only [parseAttribute, hname, h1, h2, hifname, if_true, and_self, skipWhitespace_fst,
    hdrop, t1, t2, hA, dropWhile_whitespace_stop closeBrace (d :: r) hcb, hcloseb,
    dropWhile_whitespace_stop d r hdw, helse]
  exact ⟨_, _, rfl, by simp [Attribute.isStyleExpression, hS]⟩

/-- The element parser on `<n style="v"`, then `/>`: the element with the constant
attribute. -/
theorem parseElement_constant_selfClosing (f : Nat) (n v : String) (start : Position)
    (hn : validName n = true) (hv : plainLiteral v = true) :
    ∃ p, parseElement (f + 1)
        ('<' :: (n.data ++ ' ' :: 's' :: 't' :: 'y' :: 'l' :: 'e' :: '=' :: quote ::
          (v.data ++ quote :: ['/', '>']))) start
      = Parsed.ok (Node.Element n [Attribute.ConstantAttribute "style" v] []) [] p := by
  have hattr : ∀ q, ∃ a p,
      parseAttribute (parseAttributes ((('t' :: 'y' :: 'l' :: 'e' :: '=' :: quote ::
          (v.data ++ quote :: ['/', '>'])).length + 1) + 1))
        ('s' :: 't' :: 'y' :: 'l' :: 'e' :: '=' :: quote :: (v.data ++ quote :: ['/', '>'])) q
        = Parsed.ok a ('/' :: ['>']) p ∧ a = Attribute.ConstantAttribute "style" v := by
    intro q
    obtain ⟨p, h⟩ := parseAttribute_style_constant (parseAttributes
      ((('t' :: 'y' :: 'l' :: 'e' :: '=' :: quote :: (v.data ++ quote :: ['/', '>'])).length + 1)
        + 1)) v ['/', '>'] q hv
    exact ⟨_, p, h, rfl⟩
  obtain ⟨a, p, ha, hs⟩ := parseAttributes_single _ 's' _ '/' ['>']
    ((start.advance '<').advanceAll n.data) (fun a => a = Attribute.ConstantAttribute "style" v)
    (by decide) (by decide) (by decide) hattr
  subst hs
  have hlen : (' ' :: 's' :: 't' :: 'y' :: 'l' :: 'e' :: '=' :: quote ::
      (v.data ++ quote :: ['/', '>'])).length + 1
      = (('t' :: 'y' :: 'l' :: 'e' :: '=' :: quote :: (v.data ++ quote :: ['/', '>'])).length + 1)
        + 2 := rfl
  have h1 : after ['/', '>'] ('/' :: ['>']) = some [] := by simp [after]
  have hst : anyStyleExpression [Attribute.ConstantAttribute "style" v] = false := by
    simp [anyStyleExpression, Attribute.isStyleExpression]
  rw [parseElement]
  simp only [if_true, elementName_append n ' ' _ hn space_not_nameChar, hlen, ha,
    skipWhitespace_stop '/' ['>'] p (by decide), h1, hst, Bool.false_eq_true, if_false]
  exact ⟨_, rfl⟩

/-- The element parser on `<n style="v"`, then `>` and the end tag `</n>`: the element
with the constant attribute. -/
theorem parseElement_constant_openClose (f : Nat) (n v : String) (start : Position)
    (hn : validName n = true) (hv : plainLiteral v = true) :
    ∃ p, parseElement (f + 1)
        ('<' :: (n.data ++ ' ' :: 's' :: 't' :: 'y' :: 'l' :: 'e' :: '=' :: quote ::
          (v.data ++ quote :: '>' :: '<' :: '/' :: (n.data ++ ['>'])))) start
      = Parsed.ok (Node.Element n [Attribute.ConstantAttribute "style" v] []) [] p := by
  have hattr : ∀ q, ∃ a p,
      parseAttribute (parseAttributes ((('t' :: 'y' :: 'l' :: 'e' :: '=' :: quote ::
          (v.data ++ quote :: '>' :: '<' :: '/' :: (n.data ++ ['>']))).length + 1) + 1))
        ('s' :: 't' :: 'y' :: 'l' :: 'e' :: '=' :: quote ::
          (v.data ++ quote :: '>' :: '<' :: '/' :: (n.data ++ ['>']))) q
        = Parsed.ok a ('>' :: '<' :: '/' :: (n.data ++ ['>'])) p
          ∧ a = Attribute.ConstantAttribute "style" v := by
    intro q
    obtain ⟨p, h⟩ := parseAttribute_style_constant (parseAttributes
      ((('t' :: 'y' :: 'l' :: 'e' :: '=' :: quote ::
          (v.data ++ quote :: '>' :: '<' :: '/' :: (n.data ++ ['>']))).length + 1) + 1)) v
      ('>' :: '<' :: '/' :: (n.data ++ ['>'])) q hv
    exact ⟨_, p, h, rfl⟩
  obtain ⟨a, p, ha, hs⟩ := parseAttributes_single _ 's' _ '>' ('<' :: '/' :: (n.data ++ ['>']))
    ((start.advance '<').advanceAll n.data) (fun a => a = Attribute.ConstantAttribute "style" v)
    (by decide) (by decide) (by decide) hattr
  subst hs
  have hlen : (' ' :: 's' :: 't' :: 'y' :: 'l' :: 'e' :: '=' :: quote ::
      (v.data ++ quote :: '>' :: '<' :: '/' :: (n.data ++ ['>']))).length + 1
      = (('t' :: 'y' :: 'l' :: 'e' :: '=' :: quote ::
          (v.data ++ quote :: '>' :: '<' :: '/' :: (n.data ++ ['>']))).length + 1) + 2 := rfl
  have hst : anyStyleExpression [Attribute.ConstantAttribute "style" v] = false := by
    simp [anyStyleExpression, Attribute.isStyleExpression]
  have hgt : isNameChar '>' = false := by decide
  rw [parseElement]
  simp only [if_true, elementName_append n ' ' _ hn space_not_nameChar, hlen, ha,
    skipWhitespace_stop '>' _ p (by decide), after_selfClose_gt, after_gt, hst,
    Bool.false_eq_true, if_false]
  simp only [List.length_cons, parseChildren_endTag, List.any_nil, Bool.false_eq_true,
    and_false, if_false, after_endTag, elementName_append n '>' _ hn hgt, after_gt, if_true]
  exact ⟨_, rfl⟩

/-- The element parser on `<n style=` and an expression in braces, then `/>` or `>` and
anything: the error of the `style` attribute at the opening tag. -/
theorem parseElement_expression_text (f : Nat) (n : String) (l r : List Char) (d : Char)
    (start : Position) (hn : validName n = true)
    (hl : l.all (fun c => c ≠ openBrace && c ≠ closeBrace) = true)
    (hd : (d = '/' ∧ ∃ r2, r = '>' :: r2) ∨ d = '>') :
    parseElement (f + 1)
        ('<' :: (n.data ++ ' ' :: 's' :: 't' :: 'y' :: 'l' :: 'e' :: '=' :: openBrace ::
          (l ++ closeBrace :: d :: r))) start
      = Parsed.error { msg := invalidStyleAttribute n, pos := start } := by
  apply parseElement_style_text f n 's' _ d r start hn (by decide) hd
  intro q
  obtain ⟨ex, p, h⟩ := parseAttribute_style_expression
    (parseAttributes (('t' :: 'y' :: 'l' :: 'e' :: '=' :: openBrace ::
      (l ++ closeBrace :: d :: r)).length + 1 + 1)) l (d :: r) q hl
  exact ⟨_, p, h, by simp [Attribute.isStyleExpression]⟩

/-- The element parser on `<n style?=` and an expression in braces, then `/>` or `>` and
anything: the error of the `style` attribute at the opening tag. -/
theorem parseElement_boolExpression_text (f : Nat) (n : String) (l r : List Char) (d : Char)
    (start : Position) (hn : validName n = true)
    (hl : l.all (fun c => c ≠ openBrace && c ≠ closeBrace) = true)
    (hd : (d = '/' ∧ ∃ r2, r = '>' :: r2) ∨ d = '>') :
    parseElement (f + 1)
        ('<' :: (n.data ++ ' ' :: 's' :: 't' :: 'y' :: 'l' :: 'e' :: '?' :: '=' :: openBrace ::
          (l ++ closeBrace :: d :: r))) start
      = Parsed.error { msg := invalidStyleAttribute n, pos := start } := by
  apply parseElement_style_text f n 's' _ d r start hn (by decide) hd
  intro q
  obtain ⟨ex, p, h⟩ := parseAttribute_style_boolExpression
    (parseAttributes (('t' :: 'y' :: 'l' :: 'e' :: '?' :: '=' :: openBrace ::
      (l ++ closeBrace :: d :: r)).length + 1 + 1)) l (d :: r) q hl
  exact ⟨_, p, h, by simp [Attribute.isStyleExpression]⟩

/-- The element parser on `<n if cnd`, then in braces ` style=` and an expression in
braces, then `/>` or `>` and anything: the error of the `style` attribute at the opening
tag. -/
theorem parseElement_conditional_text (f : Nat) (n : String) (cnd l r : List Char) (d : Char)
    (start : Position) (hn : validName n = true)
    (hcnd : cnd.all (fun c => c ≠ openBrace && c ≠ closeBrace) = true)
    (hl : l.all (fun c => c ≠ openBrace && c ≠ closeBrace) = true)
    (hd : (d = '/' ∧ ∃ r2, r = '>' :: r2) ∨ d = '>') :
    parseElement (f + 1)
        ('<' :: (n.data ++ ' ' :: 'i' :: 'f' :: ' ' :: (cnd ++ openBrace :: ' ' :: 's' :: 't' ::
          'y' :: 'l' :: 'e' :: '=' :: openBrace ::
          (l ++ closeBrace :: closeBrace :: d :: r)))) start
      = Parsed.error { msg := invalidStyleAttribute n, pos := start } := by
  have hd2 : d = '/' ∨ d = '>' := by
    rcases hd with ⟨h, _⟩ | h
    · exact Or.inl h
    · exact Or.inr h
  apply parseElement_style_text f n 'i' _ d r start hn (by decide) hd
  intro q
  apply parseAttribute_conditional _ cnd _ r d hcnd hd2
  intro pos
  obtain ⟨a, p, ha, hs⟩ := parseAttributes_single
    (('f' :: ' ' :: (cnd ++ openBrace :: ' ' :: 's' :: 't' :: 'y' :: 'l' :: 'e' :: '=' ::
      openBrace :: (l ++ closeBrace :: closeBrace :: d :: r))).length)
    's' ('t' :: 'y' :: 'l' :: 'e' :: '=' :: openBrace :: (l ++ closeBrace :: closeBrace :: d :: r))
    closeBrace (d :: r) pos (fun a => a.isStyleExpression = true) (by decide) (by decide)
    (by decide)
    (by
      intro q2
      obtain ⟨ex, p, h⟩ := parseAttribute_style_expression
        (parseAttributes (('f' :: ' ' :: (cnd ++ openBrace :: ' ' :: 's' :: 't' :: 'y' :: 'l' ::
          'e' :: '=' :: openBrace :: (l ++ closeBrace :: closeBrace :: d :: r))).length + 1))
        l (closeBrace :: d :: r) q2 hl
      exact ⟨_, p, h, by simp [Attribute.isStyleExpression]⟩)
  exact ⟨[a], p, ha, by simp [anyStyleExpression, hs]⟩

theorem data_expression_text (n e close rest : String) :
    ("<" ++ n ++ " style=\x7b" ++ e ++ "\x7d" ++ close ++ rest).data
      = '<' :: (n.data ++ ' ' :: 's' :: 't' :: 'y' :: 'l' :: 'e' :: '=' :: openBrace ::
          (e.data ++ closeBrace :: (close.data ++ rest.data))) := by
  simp [String.data_append, openBrace, closeBrace]

theorem data_boolExpression_text (n e close rest : String) :
    ("<" ++ n ++ " style?=\x7b" ++ e ++ "\x7d" ++ close ++ rest).data
      = '<' :: (n.data ++ ' ' :: 's' :: 't' :: 'y' :: 'l' :: 'e' :: '?' :: '=' :: openBrace ::
          (e.data ++ closeBrace :: (close.data ++ rest.data))) := by
  simp [String.data_append, openBrace, closeBrace]

theorem data_conditional_text (n cnd e close rest : String) :
    ("<" ++ n ++ " if " ++ cnd ++ "\x7b style=\x7b" ++ e ++ "\x7d\x7d" ++ close ++ rest).data
      = '<' :: (n.data ++ ' ' :: 'i' :: 'f' :: ' ' :: (cnd.data ++ openBrace :: ' ' :: 's' :: 't' ::
          'y' :: 'l' :: 'e' :: '=' :: openBrace ::
          (e.data ++ closeBrace :: closeBrace :: (close.data ++ rest.data)))) := by
  simp [String.data_append, openBrace, closeBrace]

theorem data_constant_text (n v tail : String) :
    ("<" ++ n ++ " style=\"" ++ v ++ "\"" ++ tail).data
      = '<' :: (n.data ++ ' ' :: 's' :: 't' :: 'y' :: 'l' :: 'e' :: '=' :: quote ::
          (v.data ++ quote :: tail.data)) := by
  simp [String.data_append, quote]

/-- The element parser on the self-closing `<b />`: the element, and the input after it. -/
theorem parseElement_selfClosing (f : Nat) (b : String) (r : List Char) (start : Position)
    (hb : validName b = true) :
    ∃ p, parseElement (f + 1) ('<' :: (b.data ++ ' ' :: '/' :: '>' :: r)) start
      = Parsed.ok (Node.Element b [] []) r p := by
  have h1 : after ['/', '>'] ('/' :: '>' :: r) = some r := by simp [after]
  rw [parseElement]
  simp only [if_true, elementName_append b ' ' _ hb space_not_nameChar, List.length_cons,
    parseAttributes_space_stop _ '/' ('>' :: r) _ (by decide) (by decide),
    skipWhitespace_space '/' ('>' :: r) _ (by decide), h1, anyStyleExpression_nil,
    Bool.false_eq_true, if_false]
  exact ⟨_, rfl⟩

theorem head_name_ne_slash (b : String) (x : List Char) (hb : validName b = true) :
    ¬ ((b.data ++ x).head? = some '/') := by
  obtain ⟨c, cs, heq, h1, _⟩ := validName_data b hb
  rw [heq]
  simp only [List.cons_append, List.head?_cons, Option.some.injEq]
  rintro rfl
  revert h1
  decide

/-- The children parser on `<b />` followed by an end tag: the one element. -/
theorem parseChildren_selfClosing (f k : Nat) (b : String) (r : List Char) (pos : Position)
    (hb : validName b = true) :
    ∃ p, parseChildren (parseElement (f + 1)) (k + 2)
        ('<' :: (b.data ++ ' ' :: '/' :: '>' :: '<' :: '/' :: r)) pos
      = Parsed.ok [Node.Element b [] []] ('<' :: '/' :: r) p := by
  have hel : ∀ q, ∃ p, parseElement (f + 1)
      ('<' :: (b.data ++ ' ' :: '/' :: '>' :: '<' :: '/' :: r)) q
      = Parsed.ok (Node.Element b [] []) ('<' :: '/' :: r) p :=
    fun q => parseElement_selfClosing f b ('<' :: '/' :: r) q hb
  choose Pf hP using hel
  rw [parseChildren]
  simp only [if_true, head_name_ne_slash b _ hb, if_false, hP, parseChildren_endTag]
  exact ⟨_, rfl⟩

/-- The children parser on a string expression in braces followed by an end tag: the one
string expression. -/
theorem parseChildren_stringExpression
    (elem : List Char → Position → Parsed Node) (k : Nat) (l r : List Char) (pos : Position)
    (hl : l.all (fun c => c ≠ openBrace && c ≠ closeBrace) = true) :
    ∃ ex p, parseChildren elem (k + 2) (openBrace :: (l ++ closeBrace :: '<' :: '/' :: r)) pos
      = Parsed.ok [Node.StringExpression ex] ('<' :: '/' :: r) p := by
  have hbr : ∀ q, ∃ ex p, braceExpression (l ++ closeBrace :: '<' :: '/' :: r) q
      = Parsed.ok ex ('<' :: '/' :: r) p :=
    fun q => braceExpression_braceFree l ('<' :: '/' :: r) q hl
  choose Ex Pf hB using hbr
  have hne : ¬ (openBrace = '<') := by decide
  rw [parseChildren]
  simp only [hne, if_false, if_true, hB, parseChildren_endTag]
  exact ⟨_, _, rfl⟩

/-- The element parser on `<name>`, children that are read and hold a node that is not
text, and an end tag, for `name` one of `script` and `style`: the error of the node
contents at the opening tag. -/
theorem parseElement_nonText_children (f : Nat) (name : String) (cs5 r : List Char)
    (start : Position) (nodes : List Node)
    (hscript : name = "script" ∨ name = "style")
    (hchildren : ∀ q, ∃ p, parseChildren (parseElement f) (cs5.length + 1) cs5 q
      = Parsed.ok nodes ('<' :: '/' :: r) p)
    (hnodes : nodes.any (fun n => !n.isText) = true) :
    parseElement (f + 1) ('<' :: (name.data ++ '>' :: cs5)) start
      = Parsed.error { msg := invalidNodeContents name, pos := start } := by
  have hn : validName name = true := by
    rcases hscript with h | h <;> subst h <;> decide
  have hgt : isNameChar '>' = false := by decide
  choose Pf hP using hchildren
  rw [parseElement]
  simp only [if_true, elementName_append name '>' _ hn hgt, List.length_cons,
    parseAttributes_gt, skipWhitespace_gt, after_selfClose_gt, after_gt,
    anyStyleExpression_nil, Bool.false_eq_true, if_false, hP, hnodes, hscript, and_self]
/-! ## The element parser on `style` attributes and on `script` and `style` elements -/

/-- The element parser from the opening tag on: when the name and the attributes are
read and an attribute named `style` is an expression or a boolean expression, an element
closed by `/>` or opened by `>` is an error at the opening tag. -/
theorem parseElement_style_expression (fuel : Nat) (cs1 cs2 cs3 cs5 : List Char)
    (start p3 : Position) (name : String) (attrs : List Attribute)
    (hname : elementName cs1 = some (name, cs2))
    (hattrs : parseAttributes (cs2.length + 1) cs2
      ((start.advance '<').advanceAll name.data) = Parsed.ok attrs cs3 p3)
    (hclose : after ['/', '>'] (skipWhitespace cs3 p3).1 = some cs5
      ∨ after ['>'] (skipWhitespace cs3 p3).1 = some cs5)
    (hstyle : anyStyleExpression attrs = true) :
    parseElement (fuel + 1) ('<' :: cs1) start
      = Parsed.error { msg := invalidStyleAttribute name, pos := start } := by
  rw [parseElement]
  simp only [if_true, hname, hattrs]
  rcases hclose with h | h
  · simp only [h, hstyle, if_true]
  · cases h2 : after ['/', '>'] (skipWhitespace cs3 p3).1 with
    | none => simp only [h, hstyle, if_true]
    | some c => simp only [hstyle, if_true]

/-- The element parser from the opening tag on: when the name is `script` or `style`, the
attributes hold no expression-valued `style`, the tag is opened by `>` and the children
are read and hold a node that is not text, the element is an error at the opening tag. -/
theorem parseElement_script_style (fuel : Nat) (cs1 cs2 cs3 cs5 cs6 : List Char)
    (start p3 p6 : Position) (name : String) (attrs : List Attribute) (nodes : List Node)
    (hscript : name = "script" ∨ name = "style")
    (hname : elementName cs1 = some (name, cs2))
    (hattrs : parseAttributes (cs2.length + 1) cs2
      ((start.advance '<').advanceAll name.data) = Parsed.ok attrs cs3 p3)
    (hself : after ['/', '>'] (skipWhitespace cs3 p3).1 = none)
    (hopen : after ['>'] (skipWhitespace cs3 p3).1 = some cs5)
    (hstyle : anyStyleExpression attrs = false)
    (hchildren : parseChildren (parseElement fuel) (cs5.length + 1) cs5
      ((skipWhitespace cs3 p3).2.advance '>') = Parsed.ok nodes cs6 p6)
    (hnodes : nodes.any (fun n => !n.isText) = true) :
    parseElement (fuel + 1) ('<' :: cs1) start
      = Parsed.error { msg := invalidNodeContents name, pos := start } := by
  rw [parseElement]
  simp only [if_true, hname, hattrs, hself, hopen, hstyle, Bool.false_eq_true, if_false,
    hchildren, hnodes, hscript, and_self]


/-- Counterexample to C11: a `script` element whose only child is the nested element
`<button />`, and whose `style` attribute is an expression: the parser fails with the
error of the `style` attribute, raised before the children are parsed, not with the error
of the node contents. -/
theorem script_with_style_expression_fails_on_the_attribute :
    element.Parse "<script style={ v }><button /></script>"
      = Parsed.error
          { msg := "<script>: invalid style attribute: style attributes cannot be a templ expression"
            pos := { index := 0, line := 0, col := 0 } } ∧
    element.Parse "<script style={ v }><button /></script>"
      ≠ Parsed.error
          { msg := "<script>: invalid node contents: script and style attributes must only contain text"
            pos := { index := 0, line := 0, col := 0 } } := by
  have h : element.Parse "<script style={ v }><button /></script>"
      = Parsed.error
          { msg := "<script>: invalid style attribute: style attributes cannot be a templ expression"
            pos := { index := 0, line := 0, col := 0 } } := rfl
  refine ⟨h, ?_⟩
  rw [h]
  intro hne
  injection hne with hne
  revert hne
  decide


theorem data_script_selfClosing (name b : String) :
    ("<" ++ name ++ "><" ++ b ++ " /></" ++ name ++ ">").data
      = '<' :: (name.data ++ '>' :: '<' :: (b.data ++ ' ' :: '/' :: '>' :: '<' :: '/' ::
          (name.data ++ ['>']))) := by
  simp [String.data_append]

theorem data_script_stringExpression (name e : String) :
    ("<" ++ name ++ ">\x7b" ++ e ++ "\x7d</" ++ name ++ ">").data
      = '<' :: (name.data ++ '>' :: openBrace :: (e.data ++ closeBrace :: '<' :: '/' ::
          (name.data ++ ['>']))) := by
  simp [String.data_append, openBrace, closeBrace]

/-- C11 as amended: for every element named `script` or `style` whose opening tag and
children are read without another error being raised first (no malformed attribute, no
expression-valued `style` attribute, no error inside a child) and whose children hold a
node that is not literal text, the element parser fails with the error
`<NAME>: invalid node contents: script and style attributes must only contain text` at the
opening tag, index 0, line 0, column 0 when the element starts the input: for a nested
element `<b />` of any valid name `b` and for a string expression of any text `e` without
braces alike; for every element whose opening tag and children are read; and on the inputs
of the tests. Text alone is accepted. -/
theorem script_style_children_must_be_text (name b e : String)
    (hscript : name = "script" ∨ name = "style") (hb : validName b = true)
    (he : braceFree e = true) :
    (element.Parse ("<" ++ name ++ "><" ++ b ++ " /></" ++ name ++ ">")
        = Parsed.error
            { msg := "<" ++ name
                ++ ">: invalid node contents: script and style attributes must only contain text"
              pos := { index := 0, line := 0, col := 0 } } ∧
      element.Parse ("<" ++ name ++ ">\x7b" ++ e ++ "\x7d</" ++ name ++ ">")
        = Parsed.error
            { msg := "<" ++ name
                ++ ">: invalid node contents: script and style attributes must only contain text"
              pos := { index := 0, line := 0, col := 0 } }) ∧
    (∀ (fuel : Nat) (cs1 cs2 cs3 cs5 cs6 : List Char) (start p3 p6 : Position)
        (attrs : List Attribute) (nodes : List Node),
      elementName cs1 = some (name, cs2) →
      parseAttributes (cs2.length + 1) cs2 ((start.advance '<').advanceAll name.data)
        = Parsed.ok attrs cs3 p3 →
      after ['/', '>'] (skipWhitespace cs3 p3).1 = none →
      after ['>'] (skipWhitespace cs3 p3).1 = some cs5 →
      anyStyleExpression attrs = false →
      parseChildren (parseElement fuel) (cs5.length + 1) cs5
        ((skipWhitespace cs3 p3).2.advance '>') = Parsed.ok nodes cs6 p6 →
      nodes.any (fun n => !n.isText) = true →
      parseElement (fuel + 1) ('<' :: cs1) start
        = Parsed.error
            { msg := "<" ++ name
                ++ ">: invalid node contents: script and style attributes must only contain text"
              pos := start }) ∧
    (element.Parse "<style><button /></style>"
        = Parsed.error
            { msg := "<style>: invalid node contents: script and style attributes must only contain text"
              pos := { index := 0, line := 0, col := 0 } } ∧
      element.Parse "<script><button /></script>"
        = Parsed.error
            { msg := "<script>: invalid node contents: script and style attributes must only contain text"
              pos := { index := 0, line := 0, col := 0 } } ∧
      element.Parse "<script>\x7b \"value\" \x7d</script>"
        = Parsed.error
            { msg := "<script>: invalid node contents: script and style attributes must only contain text"
              pos := { index := 0, line := 0, col := 0 } } ∧
      element.Parse "<style>\x7b \"value\" \x7d</style>"
        = Parsed.error
            { msg := "<style>: invalid node contents: script and style attributes must only contain text"
              pos := { index := 0, line := 0, col := 0 } } ∧
      element.Parse "<script>var x = 1;</script>"
        = Parsed.ok (Node.Element "script" [] [Node.Text "var x = 1;"]) []
            { index := 27, line := 0, col := 27 }) := by
  refine ⟨⟨?_, ?_⟩, ?_, rfl, rfl, rfl, rfl, rfl⟩
  · unfold element.Parse
    have hlen : ("<" ++ name ++ "><" ++ b ++ " /></" ++ name ++ ">").length
        = ("<" ++ name ++ "><" ++ b ++ " /></" ++ name ++ ">").data.length := rfl
    rw [hlen, data_script_selfClosing, List.length_cons]
    apply parseElement_nonText_children _ name _ (name.data ++ ['>']) _
      [Node.Element b [] []] hscript _ (by rfl)
    intro q
    exact parseChildren_selfClosing _ _ b (name.data ++ ['>']) q hb
  · unfold element.Parse
    rw [data_script_stringExpression]
    have hex : ∀ q, ∃ ex p,
        parseChildren
            (parseElement ("<" ++ name ++ ">\x7b" ++ e ++ "\x7d</" ++ name ++ ">").length)
            ((openBrace :: (e.data ++ closeBrace :: '<' :: '/' :: (name.data ++ ['>']))).length
              + 1)
            (openBrace :: (e.data ++ closeBrace :: '<' :: '/' :: (name.data ++ ['>']))) q
          = Parsed.ok [Node.StringExpression ex] ('<' :: '/' :: (name.data ++ ['>'])) p :=
      fun q => parseChildren_stringExpression _ _ e.data (name.data ++ ['>']) q he
    have hn : validName name = true := by
      rcases hscript with h | h <;> subst h <;> decide
    have hgt : isNameChar '>' = false := by decide
    choose Ex Pf hP using hex
    rw [parseElement]
    simp only [if_true, elementName_append name '>' _ hn hgt, parseAttributes_gt,
      skipWhitespace_gt, after_selfClose_gt, after_gt, anyStyleExpression_nil,
      Bool.false_eq_true, if_false, hP, hscript, List.any_cons, Node.isText, Bool.not_false,
      Bool.true_or, and_self, if_true]
    rfl
  · intro fuel cs1 cs2 cs3 cs5 cs6 start p3 p6 attrs nodes hname hattrs hself hopen hstyle
      hchildren hnodes
    exact parseElement_script_style fuel cs1 cs2 cs3 cs5 cs6 start p3 p6 name attrs nodes
      hscript hname hattrs hself hopen hstyle hchildren hnodes

/-- Witness of C11 as amended: the element `style` with the child `<button />` of the
tests. -/
theorem script_style_children_must_be_text_witness :
    (("style" = "script" ∨ "style" = "style") ∧ validName "button" = true ∧
      braceFree " \"value\" " = true) ∧
    element.Parse ("<" ++ "style" ++ "><" ++ "button" ++ " /></" ++ "style" ++ ">")
      = Parsed.error
          { msg := "<" ++ "style"
              ++ ">: invalid node contents: script and style attributes must only contain text"
            pos := { index := 0, line := 0, col := 0 } } ∧
    element.Parse ("<" ++ "style" ++ ">\x7b" ++ " \"value\" " ++ "\x7d</" ++ "style" ++ ">")
      = Parsed.error
          { msg := "<" ++ "style"
              ++ ">: invalid node contents: script and style attributes must only contain text"
            pos := { index := 0, line := 0, col := 0 } } :=
  ⟨⟨Or.inr rfl, by decide, by decide⟩,
    (script_style_children_must_be_text "style" "button" " \"value\" " (Or.inr rfl) (by decide)
      (by decide)).1⟩


/-- C12: for every element, closed by `/>` or opened by `>`, whose attribute named `style`
is an expression or a boolean expression, the element parser fails with the error
`<NAME>: invalid style attribute: style attributes cannot be a templ expression` at the
opening tag, index 0 when the element starts the input: for every valid name `n`, every
expression text `e` without braces and whatever text `rest` follows the tag, in both forms,
also when the `style` attribute stands in a conditional attribute; for every element
whose name and attributes are read, whatever its other attributes; and on the inputs of
the tests. A constant `style="v"` is accepted, in both forms, and stored as a
`ConstantAttribute`, for every literal `v` without double quote and `&`. -/
theorem style_attribute_must_be_constant (n e cnd v rest : String)
    (hn : validName n = true) (he : braceFree e = true) (hcnd : braceFree cnd = true)
    (hv : plainLiteral v = true) :
    (element.Parse ("<" ++ n ++ " style=\x7b" ++ e ++ "\x7d" ++ "/>" ++ rest)
        = Parsed.error
            { msg := "<" ++ n
                ++ ">: invalid style attribute: style attributes cannot be a templ expression"
              pos := { index := 0, line := 0, col := 0 } } ∧
      element.Parse ("<" ++ n ++ " style=\x7b" ++ e ++ "\x7d" ++ ">" ++ rest)
        = Parsed.error
            { msg := "<" ++ n
                ++ ">: invalid style attribute: style attributes cannot be a templ expression"
              pos := { index := 0, line := 0, col := 0 } } ∧
      element.Parse ("<" ++ n ++ " style?=\x7b" ++ e ++ "\x7d" ++ "/>" ++ rest)
        = Parsed.error
            { msg := "<" ++ n
                ++ ">: invalid style attribute: style attributes cannot be a templ expression"
              pos := { index := 0, line := 0, col := 0 } } ∧
      element.Parse ("<" ++ n ++ " style?=\x7b" ++ e ++ "\x7d" ++ ">" ++ rest)
        = Parsed.error
            { msg := "<" ++ n
                ++ ">: invalid style attribute: style attributes cannot be a templ expression"
              pos := { index := 0, line := 0, col := 0 } } ∧
      element.Parse
          ("<" ++ n ++ " if " ++ cnd ++ "\x7b style=\x7b" ++ e ++ "\x7d\x7d" ++ "/>" ++ rest)
        = Parsed.error
            { msg := "<" ++ n
                ++ ">: invalid style attribute: style attributes cannot be a templ expression"
              pos := { index := 0, line := 0, col := 0 } } ∧
      element.Parse
          ("<" ++ n ++ " if " ++ cnd ++ "\x7b style=\x7b" ++ e ++ "\x7d\x7d" ++ ">" ++ rest)
        = Parsed.error
            { msg := "<" ++ n
                ++ ">: invalid style attribute: style attributes cannot be a templ expression"
              pos := { index := 0, line := 0, col := 0 } }) ∧
    ((∃ p, element.Parse ("<" ++ n ++ " style=\"" ++ v ++ "\"" ++ "/>")
        = Parsed.ok (Node.Element n [Attribute.ConstantAttribute "style" v] []) [] p) ∧
      (∃ p, element.Parse ("<" ++ n ++ " style=\"" ++ v ++ "\"" ++ ("></" ++ n ++ ">"))
        = Parsed.ok (Node.Element n [Attribute.ConstantAttribute "style" v] []) [] p)) ∧
    (∀ (fuel : Nat) (cs1 cs2 cs3 cs5 : List Char) (start p3 : Position) (name : String)
        (attrs : List Attribute),
      elementName cs1 = some (name, cs2) →
      parseAttributes (cs2.length + 1) cs2 ((start.advance '<').advanceAll name.data)
        = Parsed.ok attrs cs3 p3 →
      (after ['/', '>'] (skipWhitespace cs3 p3).1 = some cs5
        ∨ after ['>'] (skipWhitespace cs3 p3).1 = some cs5) →
      anyStyleExpression attrs = true →
      parseElement (fuel + 1) ('<' :: cs1) start
        = Parsed.error
            { msg := "<" ++ name
                ++ ">: invalid style attribute: style attributes cannot be a templ expression"
              pos := start }) ∧
    (element.Parse "<a style={ value }></a>"
        = Parsed.error
            { msg := "<a>: invalid style attribute: style attributes cannot be a templ expression"
              pos := { index := 0, line := 0, col := 0 } } ∧
      element.Parse "<a style={ value }/>"
        = Parsed.error
            { msg := "<a>: invalid style attribute: style attributes cannot be a templ expression"
              pos := { index := 0, line := 0, col := 0 } } ∧
      element.Parse "<a if c \x7b style=\x7b v \x7d \x7d/>"
        = Parsed.error
            { msg := "<a>: invalid style attribute: style attributes cannot be a templ expression"
              pos := { index := 0, line := 0, col := 0 } } ∧
      element.Parse "<a if c \x7b style=\x7b v \x7d \x7d></a>"
        = Parsed.error
            { msg := "<a>: invalid style attribute: style attributes cannot be a templ expression"
              pos := { index := 0, line := 0, col := 0 } } ∧
      element.Parse "<a if c \x7b id=\"x\" \x7d else \x7b style?=\x7b v \x7d \x7d/>"
        = Parsed.error
            { msg := "<a>: invalid style attribute: style attributes cannot be a templ expression"
              pos := { index := 0, line := 0, col := 0 } } ∧
      element.Parse "<a href=\"test\" style=\"text-underline: auto\"/>"
        = Parsed.ok
            (Node.Element "a"
              [Attribute.ConstantAttribute "href" "test",
                Attribute.ConstantAttribute "style" "text-underline: auto"] [])
            [] { index := 45, line := 0, col := 45 } ∧
      element.Parse "<hr style=\"padding: 10px\" />"
        = Parsed.ok
            (Node.Element "hr" [Attribute.ConstantAttribute "style" "padding: 10px"] [])
            [] { index := 28, line := 0, col := 28 }) := by
  have hd1 : ∀ r : List Char, ('/' = '/' ∧ ∃ r2, '>' :: r = '>' :: r2) ∨ '/' = '>' :=
    fun r => Or.inl ⟨rfl, r, rfl⟩
  have hd2 : ('>' = '/' ∧ ∃ r2, rest.data = '>' :: r2) ∨ '>' = '>' := Or.inr rfl
  refine ⟨⟨?_, ?_, ?_, ?_, ?_, ?_⟩, ⟨?_, ?_⟩, ?_, rfl, rfl, rfl, rfl, rfl, rfl, rfl⟩
  · unfold element.Parse
    rw [data_expression_text]
    exact parseElement_expression_text _ n e.data ('>' :: rest.data) '/' _ hn he (hd1 _)
  · unfold element.Parse
    rw [data_expression_text]
    exact parseElement_expression_text _ n e.data rest.data '>' _ hn he hd2
  · unfold element.Parse
    rw [data_boolExpression_text]
    exact parseElement_boolExpression_text _ n e.data ('>' :: rest.data) '/' _ hn he (hd1 _)
  · unfold element.Parse
    rw [data_boolExpression_text]
    exact parseElement_boolExpression_text _ n e.data rest.data '>' _ hn he hd2
  · unfold element.Parse
    rw [data_conditional_text]
    exact parseElement_conditional_text _ n cnd.data e.data ('>' :: rest.data) '/' _ hn hcnd he
      (hd1 _)
  · unfold element.Parse
    rw [data_conditional_text]
    exact parseElement_conditional_text _ n cnd.data e.data rest.data '>' _ hn hcnd he hd2
  · unfold element.Parse
    rw [data_constant_text]
    exact parseElement_constant_selfClosing _ n v _ hn hv
  · unfold element.Parse
    rw [data_constant_text]
    have hd : ("></" ++ n ++ ">").data = '>' :: '<' :: '/' :: (n.data ++ ['>']) := by
      simp [String.data_append]
    rw [hd]
    exact parseElement_constant_openClose _ n v _ hn hv
  · intro fuel cs1 cs2 cs3 cs5 start p3 name attrs hname hattrs hclose hstyle
    exact parseElement_style_expression fuel cs1 cs2 cs3 cs5 start p3 name attrs hname hattrs
      hclose hstyle

/-- Witness of C12: the element `a` with the expression `value` of the tests. -/
theorem style_attribute_must_be_constant_witness :
    (validName "a" = true ∧ braceFree " value " = true ∧ braceFree "c " = true ∧
      plainLiteral "text-underline: auto" = true) ∧
    element.Parse ("<" ++ "a" ++ " style=\x7b" ++ " value " ++ "\x7d" ++ "/>" ++ "")
      = Parsed.error
          { msg := "<" ++ "a"
              ++ ">: invalid style attribute: style attributes cannot be a templ expression"
            pos := { index := 0, line := 0, col := 0 } } ∧
    element.Parse ("<" ++ "a" ++ " style=\x7b" ++ " value " ++ "\x7d" ++ ">" ++ "</a>")
      = Parsed.error
          { msg := "<" ++ "a"
              ++ ">: invalid style attribute: style attributes cannot be a templ expression"
            pos := { index := 0, line := 0, col := 0 } } :=
  ⟨⟨by decide, by decide, by decide, by decide⟩,
    (style_attribute_must_be_constant "a" " value " "c " "text-underline: auto" ""
      (by decide) (by decide) (by decide) (by decide)).1.1,
    (style_attribute_must_be_constant "a" " value " "c " "text-underline: auto" "</a>"
      (by decide) (by decide) (by decide) (by decide)).1.2.1⟩

end Templ
